import Mathlib

/-!
Verification of the review-orchestration engine of the `prpal` repository.

The TypeScript sources are shallowly embedded as executable Lean functions:
  * JavaScript `Map` objects become insertion-ordered association lists
    (`jsMapGet` / `jsMapSet` / `jsMapDelete` mirror `get` / `set` / `delete`);
  * `Date` values become `Nat` timestamps threaded explicitly;
  * JavaScript strings are modelled as Lean `String`/`List Char` (ASCII-faithful;
    UTF-16 surrogate behaviour is out of scope for every claim below);
  * functions that can throw are modelled with `Option`.

Each embedded definition keeps the name of the TypeScript function it was
translated from.
-/

set_option maxRecDepth 8000

namespace Prpal

/-! ## JavaScript `Map` model: insertion-ordered association list -/

/-- `Map.get`: the value stored at `k`, if any (first entry wins; real maps
have unique keys). -/
def jsMapGet {β : Type} (m : List (String × β)) (k : String) : Option β :=
  (m.find? (fun p => p.1 == k)).map (·.2)

/-- `Map.set`: replace in place when the key is present, append otherwise. -/
def jsMapSet {β : Type} (m : List (String × β)) (k : String) (v : β) :
    List (String × β) :=
  if (m.find? (fun p => p.1 == k)).isSome then
    m.map (fun p => if p.1 == k then (k, v) else p)
  else m ++ [(k, v)]

/-- `Map.delete`: remove every entry stored at `k`. -/
def jsMapDelete {β : Type} (m : List (String × β)) (k : String) :
    List (String × β) :=
  m.filter (fun p => p.1 != k)

/-- `Map.has`. -/
def jsMapHas {β : Type} (m : List (String × β)) (k : String) : Bool :=
  (m.find? (fun p => p.1 == k)).isSome

/-- `Map.keys()`. -/
def jsMapKeys {β : Type} (m : List (String × β)) : List String :=
  m.map (·.1)

/-! ## Diff parser (src/services/github/diffParser.ts)

Line numbers are modelled as `Int` (JavaScript `number` restricted to the
integers, which is the only form the diff parser ever produces or consumes).
-/

/-- Kind tag of `DiffLineInfo.type` in `diffParser.ts`. -/
inductive DiffKind where
  | add
  | delete
  | context
  | hunk
deriving DecidableEq, Repr

/-- `DiffLineInfo` from `diffParser.ts`. -/
structure DiffLineInfo where
  lineNumber : Int
  type : DiffKind
deriving DecidableEq, Repr

/-- `LineValidation` from `diffParser.ts` (`warning?` becomes `Option`). -/
structure LineValidation where
  requestedLine : Int
  isValid : Bool
  actualLine : Int
  warning : Option String
deriving DecidableEq, Repr

/-- `pre.isPrefixOf l` for a string literal prefix, as `line.startsWith(pre)`. -/
def startsWithStr (pre : String) (l : List Char) : Bool :=
  pre.toList.isPrefixOf l

/-- Split a character list at every occurrence of `sep`
(JavaScript `split` with a single-character separator). -/
def splitOnChar (sep : Char) : List Char → List (List Char)
  | [] => [[]]
  | c :: cs =>
    let rest := splitOnChar sep cs
    if c = sep then [] :: rest
    else match rest with
      | [] => [[c]]
      | r :: rs => (c :: r) :: rs

/-- Value of a maximal run of decimal digits, as `parseInt(digits, 10)`. -/
def digitsToInt (ds : List Char) : Int :=
  Int.ofNat (ds.foldl (fun a c => 10 * a + (c.toNat - 48)) 0)

/-- Try to match the hunk-header regular expression
`@@ -\d+,?\d* \+(\d+),?\d* @@` starting exactly at the head of `cs`,
returning the value of the capture group (the `+c` new-file start).
The pattern is deterministic: each greedy piece is followed by a literal
that no shorter choice could satisfy, so no backtracking is needed. -/
def hunkTryAt (cs : List Char) : Option Int :=
  if startsWithStr "@@ -" cs then
    let cs := cs.drop 4
    let d1 := cs.takeWhile Char.isDigit
    let cs := cs.dropWhile Char.isDigit
    if d1.isEmpty then none
    else
      let cs := match cs with
        | ',' :: rest => rest.dropWhile Char.isDigit
        | other => other
      match cs with
      | ' ' :: '+' :: cs =>
        let d2 := cs.takeWhile Char.isDigit
        let cs := cs.dropWhile Char.isDigit
        if d2.isEmpty then none
        else
          let cs := match cs with
            | ',' :: rest => rest.dropWhile Char.isDigit
            | other => other
          match cs with
          | ' ' :: '@' :: '@' :: _ => some (digitsToInt d2)
          | _ => none
      | _ => none
  else none

/-- `line.match(/@@ -\d+,?\d* \+(\d+),?\d* @@/)`: leftmost match, scanning
every start position of the line. -/
def hunkMatch : List Char → Option Int
  | [] => none
  | c :: rest =>
    match hunkTryAt (c :: rest) with
    | some n => some n
    | none => hunkMatch rest

/-- Result record of `parseSingleLine`. -/
structure ParsedLine where
  info : DiffLineInfo
  nextNewLine : Int
deriving DecidableEq, Repr

/-- `parseSingleLine` from `diffParser.ts`: classify one diff line against the
running new-file counter. -/
def parseSingleLine (line : List Char) (currentNewLine : Int) : Option ParsedLine :=
  if startsWithStr "@@" line then
    let newStart := (hunkMatch line).getD currentNewLine
    some ⟨⟨newStart, .hunk⟩, newStart⟩
  else if startsWithStr "---" line || startsWithStr "+++" line then none
  else if startsWithStr "\\" line then none
  else if startsWithStr "+" line then some ⟨⟨currentNewLine, .add⟩, currentNewLine + 1⟩
  else if startsWithStr "-" line then some ⟨⟨currentNewLine, .delete⟩, currentNewLine⟩
  else some ⟨⟨currentNewLine, .context⟩, currentNewLine + 1⟩

/-- The `for`-loop body of `parseDiffPatch`: fold `parseSingleLine` over the
split lines, advancing the counter only when a line produced an entry. -/
def parseDiffPatchLines : List (List Char) → Int → List DiffLineInfo
  | [], _ => []
  | l :: ls, newLine =>
    match parseSingleLine l newLine with
    | some parsed => parsed.info :: parseDiffPatchLines ls parsed.nextNewLine
    | none => parseDiffPatchLines ls newLine

/-- `parseDiffPatch` from `diffParser.ts` (`if (!patch) return []` guards the
empty string, the only falsy string). -/
def parseDiffPatch (patch : String) : List DiffLineInfo :=
  if patch = "" then []
  else parseDiffPatchLines (splitOnChar '\n' patch.toList) 0

/-- `getValidLineNumbers` from `diffParser.ts`. -/
def getValidLineNumbers (patch : String) : List Int :=
  ((parseDiffPatch patch).filter
    (fun l => l.type == .add || l.type == .context)).map (·.lineNumber)

/-- `Math.max(...candidates)` for a nonempty candidate list. -/
def maxOfList : List Int → Option Int
  | [] => none
  | x :: xs => some (xs.foldl max x)

/-- `findClosestLineBefore` from `diffParser.ts`. -/
def findClosestLineBefore (line : Int) (validLines : List Int) : Option Int :=
  maxOfList (validLines.filter (fun l => l ≤ line))

/-- `validateLine` from `diffParser.ts`. -/
def validateLine (line : Int) (patch : String) : LineValidation :=
  let validLines := getValidLineNumbers patch
  if validLines.contains line then
    ⟨line, true, line, none⟩
  else
    match findClosestLineBefore line validLines with
    | none =>
      ⟨line, false, line,
        some ("Line " ++ toString line ++ " not in diff, no earlier line available")⟩
    | some closest =>
      ⟨line, true, closest,
        some ("Line " ++ toString line ++ " not in diff, using line " ++ toString closest)⟩

/-- Claim-side rendering of the `getValidLineNumbers` algorithm, written from
the specification text: a running new-file counter is initialised from each
hunk header's `+c` value; each add or context line emits the current counter
value and then increments it; a delete line leaves the counter unchanged and
emits nothing; file-header lines and backslash markers emit nothing. -/
def validLineNumbersFromSpecLoop : List (List Char) → Int → List Int
  | [], _ => []
  | l :: ls, counter =>
    if startsWithStr "@@" l then
      validLineNumbersFromSpecLoop ls ((hunkMatch l).getD counter)
    else if startsWithStr "---" l || startsWithStr "+++" l then
      validLineNumbersFromSpecLoop ls counter
    else if startsWithStr "\\" l then
      validLineNumbersFromSpecLoop ls counter
    else if startsWithStr "+" l then
      counter :: validLineNumbersFromSpecLoop ls (counter + 1)
    else if startsWithStr "-" l then
      validLineNumbersFromSpecLoop ls counter
    else
      counter :: validLineNumbersFromSpecLoop ls (counter + 1)

/-- Claim-side valid line numbers of a whole patch. -/
def validLineNumbersFromSpec (patch : String) : List Int :=
  if patch = "" then []
  else validLineNumbersFromSpecLoop (splitOnChar '\n' patch.toList) 0

/-! ## Review domain types (the review-types module)

`Date` fields become `Nat` timestamps; every `field?` becomes an `Option`.
-/

/-- `ReviewSeverity`. -/
inductive ReviewSeverity where
  | critical
  | warning
  | info
deriving DecidableEq, Repr

/-- `ReviewVerdict`. -/
inductive ReviewVerdict where
  | approve
  | request_changes
  | comment
deriving DecidableEq, Repr

/-- `ReviewIssue`. Lines are `Int` as in the diff parser. -/
structure ReviewIssue where
  severity : ReviewSeverity
  file : Option String
  line : Option Int
  endLine : Option Int
  message : String
  suggestion : Option String
deriving DecidableEq, Repr

/-- `ReviewSuggestion`. -/
structure ReviewSuggestion where
  file : Option String
  line : Option Int
  message : String
  code : Option String
deriving DecidableEq, Repr

/-- `AIReviewOutput`. -/
structure AIReviewOutput where
  summary : String
  verdict : ReviewVerdict
  issues : List ReviewIssue
  suggestions : List ReviewSuggestion
  positives : Option (List String)
deriving DecidableEq, Repr

/-- `ReviewResult`. -/
structure ReviewResult where
  id : String
  prId : String
  prNumber : Int
  agentId : String
  output : AIReviewOutput
  rawResponse : String
  createdAt : Nat
  duration : Nat
deriving DecidableEq, Repr

/-- `ReviewStage`. -/
inductive ReviewStage where
  | starting
  | fetching_diff
  | analyzing
  | generating
  | parsing
deriving DecidableEq, Repr

/-- Status union of `ReviewState.status`. -/
inductive ReviewStatus where
  | pending
  | in_progress
  | completed
  | failed
  | cancelled
deriving DecidableEq, Repr

/-- `InlineCommentState`. -/
structure InlineCommentState where
  issue : ReviewIssue
  file : String
  requestedLine : Int
  actualLine : Int
  isValid : Bool
  warning : Option String
  selected : Bool
  issueIndex : Nat
deriving DecidableEq, Repr

/-- `ReviewState`. -/
structure ReviewState where
  prId : String
  status : ReviewStatus
  stage : Option ReviewStage
  progress : Option Nat
  result : Option ReviewResult
  error : Option String
  startedAt : Option Nat
  completedAt : Option Nat
  inlineComments : Option (List InlineCommentState)
deriving DecidableEq, Repr

/-! ## Review store (the reviewStore module)

The module-level `Map<string, ReviewState>` is threaded explicitly; `new
Date()` becomes an explicit `now` argument. Each operation is the direct
translation of the corresponding exported function; object spread of a
possibly-`undefined` `existing` keeps each non-overridden field when the
entry exists and leaves it absent otherwise.
-/

/-- Store type of the review store. -/
abbrev ReviewStore := List (String × ReviewState)

/-- `STAGE_PROGRESS` table. -/
def STAGE_PROGRESS : ReviewStage → Nat
  | .starting => 10
  | .fetching_diff => 25
  | .analyzing => 50
  | .generating => 75
  | .parsing => 90

/-- `setReviewPending`. -/
def setReviewPending (s : ReviewStore) (prId : String) : ReviewStore :=
  jsMapSet s prId ⟨prId, .pending, none, none, none, none, none, none, none⟩

/-- `setReviewInProgress` (the `stage?` parameter is `Option`; `new Date()`
is `now`). -/
def setReviewInProgress (s : ReviewStore) (prId : String)
    (stage : Option ReviewStage) (now : Nat) : ReviewStore :=
  let existing := jsMapGet s prId
  jsMapSet s prId
    { prId := prId
      status := .in_progress
      stage := some (stage.getD .starting)
      progress := some (match stage with | some st => STAGE_PROGRESS st | none => 10)
      result := existing.bind (·.result)
      error := existing.bind (·.error)
      startedAt := some ((existing.bind (·.startedAt)).getD now)
      completedAt := existing.bind (·.completedAt)
      inlineComments := existing.bind (·.inlineComments) }

/-- `updateReviewStage`: no-op unless an entry exists and is `in_progress`. -/
def updateReviewStage (s : ReviewStore) (prId : String) (stage : ReviewStage) :
    ReviewStore :=
  match jsMapGet s prId with
  | none => s
  | some existing =>
    if existing.status ≠ .in_progress then s
    else jsMapSet s prId
      { existing with stage := some stage, progress := some (STAGE_PROGRESS stage) }

/-- `setReviewCompleted`: stores a fresh object, not a spread of `existing`
(the `duration` computed from `existing` is only logged). -/
def setReviewCompleted (s : ReviewStore) (prId : String) (result : ReviewResult)
    (now : Nat) : ReviewStore :=
  jsMapSet s prId
    { prId := prId
      status := .completed
      stage := none
      progress := some 100
      result := some result
      error := none
      startedAt := none
      completedAt := some now
      inlineComments := none }

/-- `setReviewFailed`: spreads `existing` and overrides status, error and
`completedAt`. -/
def setReviewFailed (s : ReviewStore) (prId : String) (error : String)
    (now : Nat) : ReviewStore :=
  let existing := jsMapGet s prId
  jsMapSet s prId
    { prId := prId
      status := .failed
      stage := existing.bind (·.stage)
      progress := existing.bind (·.progress)
      result := existing.bind (·.result)
      error := some error
      startedAt := existing.bind (·.startedAt)
      completedAt := some now
      inlineComments := existing.bind (·.inlineComments) }

/-- `setReviewCancelled`: returns `false` and leaves the store unchanged
unless the entry exists and is `in_progress`. -/
def setReviewCancelled (s : ReviewStore) (prId : String) (now : Nat) :
    Bool × ReviewStore :=
  match jsMapGet s prId with
  | none => (false, s)
  | some existing =>
    if existing.status ≠ .in_progress then (false, s)
    else
      (true, jsMapSet s prId
        { existing with prId := prId, status := .cancelled, completedAt := some now })

/-- `setInlineComments`: no-op when no entry exists. -/
def setInlineComments (s : ReviewStore) (prId : String)
    (comments : List InlineCommentState) : ReviewStore :=
  match jsMapGet s prId with
  | none => s
  | some existing => jsMapSet s prId { existing with inlineComments := some comments }

/-! ## String helpers shared by the error handler and the response parser -/

/-- ASCII `toLowerCase` on one character. -/
def asciiLowerChar (c : Char) : Char :=
  if 'A' ≤ c ∧ c ≤ 'Z' then Char.ofNat (c.toNat + 32) else c

/-- `s.toLowerCase()` (ASCII fragment; no claim involves non-ASCII case). -/
def asciiLower (s : String) : String :=
  String.mk (s.toList.map asciiLowerChar)

/-- Substring occurrence test on character lists. -/
def listContainsSub : List Char → List Char → Bool
  | [], sub => sub.isEmpty
  | c :: rest, sub => sub.isPrefixOf (c :: rest) || listContainsSub rest sub

/-- `hay.includes(sub)`. -/
def containsSub (hay sub : String) : Bool :=
  listContainsSub hay.toList sub.toList

/-- `s.slice(0, 500)`. -/
def jsSlice500 (s : String) : String :=
  String.mk (s.toList.take 500)

/-- JavaScript `a || b` on strings: the empty string is the only falsy one. -/
def jsOrStr (a b : String) : String :=
  if a = "" then b else a

/-! ## OpenCode error handler (the errorHandler module)

Only the parts `executeOpenCode` and `executeReview` observe are modelled:
the classification and the resulting `message`/`details` of the
`OpenCodeCLIError` (the remedial `action` and the `recoverable` flag are
never read on the paths any claim mentions).
-/

/-- `OpenCodeErrorType`. -/
inductive OpenCodeErrorType where
  | NOT_INSTALLED
  | VERSION_MISMATCH
  | API_KEY_MISSING
  | API_KEY_INVALID
  | RATE_LIMITED
  | MODEL_NOT_FOUND
  | CONTEXT_TOO_LONG
  | NETWORK_ERROR
  | TIMEOUT
  | PROCESS_CRASHED
  | PARSE_ERROR
  | UNKNOWN
deriving DecidableEq, Repr

/-- `OpenCodeCLIError` restricted to the observed fields. -/
structure OpenCodeCLIError where
  errorType : OpenCodeErrorType
  message : String
  details : String
deriving DecidableEq, Repr

/-- `isApiKeyError`. -/
def isApiKeyError (text : String) : Bool :=
  containsSub text "api key" || containsSub text "unauthorized" || containsSub text "401"

/-- `isRateLimitError`. -/
def isRateLimitError (text : String) : Bool :=
  containsSub text "rate limit" || containsSub text "429" || containsSub text "too many"

/-- `isModelError`. -/
def isModelError (text : String) : Bool :=
  containsSub text "model" && (containsSub text "not found" || containsSub text "invalid")

/-- `isContextError`. -/
def isContextError (text : String) : Bool :=
  containsSub text "context" || containsSub text "too long" || containsSub text "token limit"

/-- `isNetworkError`. -/
def isNetworkError (text : String) : Bool :=
  containsSub text "network" || containsSub text "econnrefused" ||
    containsSub text "econnreset" || containsSub text "timeout"

/-- `parseOpenCodeError` from the errorHandler module. -/
def parseOpenCodeError (exitCode : Int) (stdout stderr : String) : OpenCodeCLIError :=
  let combined := asciiLower (stdout ++ "\n" ++ stderr)
  if isApiKeyError combined then
    ⟨.API_KEY_MISSING, "OpenCode API key not configured",
      "Please add your API key. Run: opencode auth login"⟩
  else if isRateLimitError combined then
    ⟨.RATE_LIMITED, "API rate limit exceeded", "Will retry automatically in 60 seconds"⟩
  else if isModelError combined then
    ⟨.MODEL_NOT_FOUND, "Selected model not available", stderr⟩
  else if isContextError combined then
    ⟨.CONTEXT_TOO_LONG, "PR diff too large for model context",
      "Try reviewing with a smaller diff"⟩
  else if isNetworkError combined then
    ⟨.NETWORK_ERROR, "Network error", "Check your internet connection"⟩
  else
    ⟨.UNKNOWN, "OpenCode exited with code " ++ toString exitCode,
      jsSlice500 (jsOrStr stderr stdout)⟩

/-! ## Executor close path and orchestrator error path (the executor module
and `executeReview` in the review routes)

`executeOpenCode` settles its promise in the `close` handler of the spawned
process. The handler's decision depends on two local flags and the exit code:
`cancelled` is set only inside the process `error` handler (which Node fires
for spawn/kill failures, not for a process that a successful `SIGTERM`
terminated — such a process fires `close` with a `null` exit code), and
`killed` is set only by the timeout timer. -/

/-- Settlement of the `executeOpenCode` promise. -/
inductive ExecOutcome where
  | resolved (stdout stderr : String) (exitCode : Int)
  | rejected (message : String)
deriving DecidableEq, Repr

/-- The `close`-handler decision of `executeOpenCode`: cancelled flag, killed
(timeout) flag, exit code (`none` models `null`, replaced by `?? 1`), and the
accumulated output. The rejection value is reduced to the `message` field
that `executeReview` inspects. -/
def closeOutcome (cancelled killed : Bool) (exitCode : Option Int)
    (stdout stderr : String) : ExecOutcome :=
  if cancelled then .rejected "Review cancelled"
  else if killed then .rejected "Review timed out"
  else
    let code := exitCode.getD 1
    if code ≠ 0 then .rejected (parseOpenCodeError code stdout stderr).message
    else .resolved stdout stderr code

/-- The `catch` block of `executeReview` in the review routes: a rejection
whose message is exactly `Review cancelled` records a cancellation, every
other rejection records a failure. -/
def executeReviewCatch (s : ReviewStore) (prId message : String) (now : Nat) :
    ReviewStore :=
  if message = "Review cancelled" then (setReviewCancelled s prId now).2
  else setReviewFailed s prId message now

/-! ## Concrete values used by witnesses -/

/-- A concrete review output. -/
def demoOutput : AIReviewOutput := ⟨"ok", .comment, [], [], none⟩

/-- A concrete review result. -/
def demoResult : ReviewResult := ⟨"rid", "pr1", 1, "agent", demoOutput, "raw", 0, 10⟩

/-- A concrete in-flight review state with stage, progress and start time. -/
def demoReviewState : ReviewState :=
  ⟨"pr1", .in_progress, some .analyzing, some 50, none, none, some 3, none, none⟩

/-- A store holding `demoReviewState`. -/
def demoReviewStore : ReviewStore := [("pr1", demoReviewState)]

/-- A concrete terminal (completed) review state. -/
def demoCompletedState : ReviewState :=
  ⟨"prC", .completed, none, some 100, some demoResult, none, none, some 9, none⟩

/-- A store holding `demoCompletedState`. -/
def demoCompletedStore : ReviewStore := [("prC", demoCompletedState)]

/-! ## PR state store (the prStore module)

`syncPRs` treats the `PullRequest` object opaquely (it only reads `id` and
stores the object wholesale), so the remaining source fields (number, title,
author, repository, refs, stats, dates, …) are abstracted into a single
`data` payload. Listener notification (`notifyListeners`) is external I/O
with no effect on the store and is omitted. -/

/-- `PullRequest`, reduced to the identity plus an opaque payload standing
for every other field. -/
structure PullRequest where
  id : String
  data : String
deriving DecidableEq, Repr

/-- `PRStatus`. -/
inductive PRStatus where
  | new
  | seen
  | reviewing
  | reviewed
  | dismissed
deriving DecidableEq, Repr

/-- `PRState` (`Date` fields as `Nat`). -/
structure PRState where
  pr : PullRequest
  status : PRStatus
  needsMyReview : Bool
  seenAt : Option Nat
  reviewStartedAt : Option Nat
  reviewCompletedAt : Option Nat
deriving DecidableEq, Repr

/-- Store type of the PR state store. -/
abbrev PRStore := List (String × PRState)

/-- `setPRState` (listener notification omitted). -/
def setPRState (s : PRStore) (prId : String) (state : PRState) : PRStore :=
  jsMapSet s prId state

/-- `updateExistingPR`: replace the item data and the attention flag, keep
status and every lifecycle timestamp. -/
def updateExistingPR (s : PRStore) (existing : PRState) (pr : PullRequest)
    (needsMyReview : Option Bool) : PRState × PRStore :=
  let updated : PRState :=
    { existing with pr := pr, needsMyReview := needsMyReview.getD existing.needsMyReview }
  (updated, setPRState s pr.id updated)

/-- `addPR` (its `needsMyReview` parameter defaults to `false` at call sites
that omit it; `syncPRs` always passes it). -/
def addPR (s : PRStore) (pr : PullRequest) (needsMyReview : Bool) :
    PRState × PRStore :=
  match jsMapGet s pr.id with
  | some existing => updateExistingPR s existing pr (some needsMyReview)
  | none =>
    let state : PRState := ⟨pr, .new, needsMyReview, none, none, none⟩
    (state, setPRState s pr.id state)

/-- `removePR`. -/
def removePR (s : PRStore) (prId : String) : Bool × PRStore :=
  (jsMapHas s prId, jsMapDelete s prId)

/-- Return record of `syncPRs`. -/
structure SyncResult where
  added : List String
  removed : List String
deriving DecidableEq, Repr

/-- First loop of `syncPRs`: upsert every snapshot item, recording in
`added` the ids absent from the pre-loop key set `existingIds`. The
`prStates.get(pr.id)!` non-null assertion of the source is modelled by a
no-op fallback; it is unreachable because `existingIds` is the initial key
set and the loop never deletes. -/
def syncAddLoop (existingIds myReviewPRIds : List String) :
    List PullRequest → List String → PRStore → List String × PRStore
  | [], added, st => (added, st)
  | pr :: rest, added, st =>
    let needsMyReview := myReviewPRIds.contains pr.id
    if existingIds.contains pr.id then
      match jsMapGet st pr.id with
      | some existing =>
        syncAddLoop existingIds myReviewPRIds rest added
          (updateExistingPR st existing pr (some needsMyReview)).2
      | none => syncAddLoop existingIds myReviewPRIds rest added st
    else
      syncAddLoop existingIds myReviewPRIds rest (added ++ [pr.id])
        (addPR st pr needsMyReview).2

/-- Second loop of `syncPRs`: delete every previously present id absent from
the snapshot's id set `newIds`, recording it in `removed`. -/
def syncRemoveLoop (newIds : List String) :
    List String → List String → PRStore → List String × PRStore
  | [], removed, st => (removed, st)
  | id :: rest, removed, st =>
    if newIds.contains id then syncRemoveLoop newIds rest removed st
    else syncRemoveLoop newIds rest (removed ++ [id]) (removePR st id).2

/-- `syncPRs` from the prStore module. -/
def syncPRs (s : PRStore) (prs : List PullRequest) (myReviewPRIds : List String) :
    SyncResult × PRStore :=
  let existingIds := jsMapKeys s
  let firstPass := syncAddLoop existingIds myReviewPRIds prs [] s
  let newIds := prs.map (·.id)
  let secondPass := syncRemoveLoop newIds existingIds [] firstPass.2
  (⟨firstPass.1, secondPass.1⟩, secondPass.2)

/-! ## Inline comment preparer (src/services/github/inlineCommentPreparer.ts) -/

/-- `PRFile` (`patch?` as `Option`; the `status` union is kept as a plain
string). -/
structure PRFile where
  filename : String
  status : String
  additions : Nat
  deletions : Nat
  patch : Option String
deriving DecidableEq, Repr

/-- JavaScript truthiness of an optional string: `undefined` and the empty
string are falsy. -/
def truthyStr : Option String → Bool
  | none => false
  | some s => s != ""

/-- JavaScript truthiness of an optional number: `undefined` and `0` are
falsy. -/
def truthyInt : Option Int → Bool
  | none => false
  | some n => n != 0

/-- `new Map(files.map((f) => [f.filename, f]))`: built left-to-right, so a
later file with the same name overrides an earlier one. -/
def buildFileMap (files : List PRFile) : List (String × PRFile) :=
  files.foldl (fun m f => jsMapSet m f.filename f) []

/-- `createInvalidComment` (the `issue.file!`/`issue.line!` non-null
assertions become `getD`; both guards hold at every call site). -/
def createInvalidComment (issue : ReviewIssue) (issueIndex : Nat)
    (warning : String) : InlineCommentState :=
  { issue := issue
    file := issue.file.getD ""
    requestedLine := issue.line.getD 0
    actualLine := issue.line.getD 0
    isValid := false
    warning := some warning
    selected := false
    issueIndex := issueIndex }

/-- `prepareComment`: skip issues without a (truthy) file or line, mark
missing files and binary files invalid, otherwise validate the line against
the file's diff. -/
def prepareComment (issue : ReviewIssue) (issueIndex : Nat)
    (fileMap : List (String × PRFile)) : Option InlineCommentState :=
  if !(truthyStr issue.file) || !(truthyInt issue.line) then none
  else
    match jsMapGet fileMap (issue.file.getD "") with
    | none => some (createInvalidComment issue issueIndex "File not in this PR")
    | some file =>
      if !(truthyStr file.patch) then
        some (createInvalidComment issue issueIndex "Binary file, no diff available")
      else
        let validation := validateLine (issue.line.getD 0) (file.patch.getD "")
        some
          { issue := issue
            file := issue.file.getD ""
            requestedLine := issue.line.getD 0
            actualLine := validation.actualLine
            isValid := validation.isValid
            warning := validation.warning
            selected := validation.isValid
            issueIndex := issueIndex }

/-- `prepareInlineComments`: one pass over the indexed issues, keeping the
comments `prepareComment` produced. -/
def prepareInlineComments (issues : List ReviewIssue) (files : List PRFile) :
    List InlineCommentState :=
  let fileMap := buildFileMap files
  issues.enum.filterMap (fun p => prepareComment p.2 p.1 fileMap)

/-- A concrete issue naming a file but no line. -/
def demoIssueNoLine : ReviewIssue := ⟨.info, some "a.ts", none, none, "m", none⟩

/-- A concrete issue naming a file and line 1. -/
def demoIssueWithLine : ReviewIssue := ⟨.warning, some "a.ts", some 1, none, "m", none⟩

/-- A concrete file list holding `a.ts` with a one-line patch. -/
def demoFiles : List PRFile := [⟨"a.ts", "modified", 1, 0, some "@@ -1,1 +1,1 @@\n x"⟩]

/-- The comment `prepareComment` produces for `demoIssueWithLine` against
`demoFiles`. -/
def demoComment : InlineCommentState :=
  ⟨demoIssueWithLine, "a.ts", 1, 1, true, none, true, 0⟩

/-- A concrete PR state in lifecycle status `seen` with a `seenAt` stamp. -/
def demoPRStateA : PRState := ⟨⟨"a", "v1"⟩, .seen, false, some 5, none, none⟩

/-- A store holding `demoPRStateA`. -/
def demoPRStore : PRStore := [("a", demoPRStateA)]

/-- A concrete snapshot: item `a` with refreshed data plus a new item `b`. -/
def demoPRs : List PullRequest := [⟨"a", "v2"⟩, ⟨"b", "w"⟩]

/-! ## JSON values and a model of `JSON.parse` (a JavaScript builtin)

`JSON.parse` is modelled by a standard recursive-descent parser over the
JSON grammar, with two documented approximations: numbers are restricted to
integers (a fraction or exponent makes the parse fail, where JavaScript
would produce a float — no claim involves non-integer numbers), and a
`\u` escape for a surrogate half falls back to the null character. Object
duplicate keys are all kept; lookups take the last one, as JavaScript does.
-/

/-- JSON values (`undefined` is represented by `Option.none` outside). -/
inductive Json where
  | null
  | bool (b : Bool)
  | num (n : Int)
  | str (s : String)
  | arr (elems : List Json)
  | obj (fields : List (String × Json))

/-- JSON whitespace (space, tab, line feed, carriage return). -/
def jsonWsChar (c : Char) : Bool :=
  c == ' ' || c == '\t' || c == '\n' || c == '\r'

/-- Skip JSON whitespace. -/
def skipJsonWs (cs : List Char) : List Char :=
  cs.dropWhile jsonWsChar

/-- Hexadecimal digit value. -/
def hexDigitVal (c : Char) : Option Nat :=
  if '0' ≤ c ∧ c ≤ '9' then some (c.toNat - 48)
  else if 'a' ≤ c ∧ c ≤ 'f' then some (c.toNat - 87)
  else if 'A' ≤ c ∧ c ≤ 'F' then some (c.toNat - 55)
  else none

/-- Parse the remainder of a JSON string literal (the opening quote already
consumed), handling escapes and rejecting raw control characters. -/
def parseJsonStr (acc : List Char) : List Char → Option (String × List Char)
  | [] => none
  | '"' :: rest => some (String.mk acc.reverse, rest)
  | '\\' :: rest =>
    match rest with
    | [] => none
    | 'u' :: h1 :: h2 :: h3 :: h4 :: rest2 =>
      match hexDigitVal h1, hexDigitVal h2, hexDigitVal h3, hexDigitVal h4 with
      | some v1, some v2, some v3, some v4 =>
        parseJsonStr (Char.ofNat (((v1 * 16 + v2) * 16 + v3) * 16 + v4) :: acc) rest2
      | _, _, _, _ => none
    | c :: rest2 =>
      if c = '"' then parseJsonStr ('"' :: acc) rest2
      else if c = '\\' then parseJsonStr ('\\' :: acc) rest2
      else if c = '/' then parseJsonStr ('/' :: acc) rest2
      else if c = 'b' then parseJsonStr ('\x08' :: acc) rest2
      else if c = 'f' then parseJsonStr ('\x0c' :: acc) rest2
      else if c = 'n' then parseJsonStr ('\n' :: acc) rest2
      else if c = 'r' then parseJsonStr ('\r' :: acc) rest2
      else if c = 't' then parseJsonStr ('\t' :: acc) rest2
      else none
  | c :: rest =>
    if c.toNat < 32 then none else parseJsonStr (c :: acc) rest

/-- Numeric value of a digit run. -/
def natOfDigits (ds : List Char) : Nat :=
  ds.foldl (fun a c => 10 * a + (c.toNat - 48)) 0

/-- Parse a JSON number (integer form only; see the section comment). -/
def parseJsonNumber (cs : List Char) : Option (Json × List Char) :=
  let neg := match cs with
    | '-' :: _ => true
    | _ => false
  let cs1 := if neg then cs.drop 1 else cs
  match cs1 with
  | [] => none
  | c :: _ =>
    if ¬ c.isDigit then none
    else
      let ds := cs1.takeWhile Char.isDigit
      let rest := cs1.dropWhile Char.isDigit
      if 1 < ds.length ∧ ds.head? = some '0' then none
      else
        match rest with
        | '.' :: _ => none
        | 'e' :: _ => none
        | 'E' :: _ => none
        | _ =>
          let v : Int := Int.ofNat (natOfDigits ds)
          some (.num (if neg then -v else v), rest)

mutual

/-- Parse one JSON value; `fuel` bounds the recursion depth. -/
def parseJsonValue : Nat → List Char → Option (Json × List Char)
  | 0, _ => none
  | fuel + 1, cs =>
    let cs := skipJsonWs cs
    match cs with
    | [] => none
    | 'n' :: rest =>
      if startsWithStr "ull" rest then some (.null, rest.drop 3) else none
    | 't' :: rest =>
      if startsWithStr "rue" rest then some (.bool true, rest.drop 3) else none
    | 'f' :: rest =>
      if startsWithStr "alse" rest then some (.bool false, rest.drop 4) else none
    | '"' :: rest => (parseJsonStr [] rest).map (fun p => (.str p.1, p.2))
    | '[' :: rest =>
      let rest := skipJsonWs rest
      match rest with
      | ']' :: r2 => some (.arr [], r2)
      | _ => parseJsonArrayElems fuel rest []
    | '\x7b' :: rest =>
      let rest := skipJsonWs rest
      match rest with
      | '\x7d' :: r2 => some (.obj [], r2)
      | _ => parseJsonObjFields fuel rest []
    | _ => parseJsonNumber cs

/-- Parse the comma-separated elements of a nonempty JSON array. -/
def parseJsonArrayElems : Nat → List Char → List Json → Option (Json × List Char)
  | 0, _, _ => none
  | fuel + 1, cs, acc =>
    match parseJsonValue fuel cs with
    | none => none
    | some (v, rest) =>
      let rest := skipJsonWs rest
      match rest with
      | ',' :: r2 => parseJsonArrayElems fuel r2 (v :: acc)
      | ']' :: r2 => some (.arr (v :: acc).reverse, r2)
      | _ => none

/-- Parse the comma-separated fields of a nonempty JSON object. -/
def parseJsonObjFields : Nat → List Char → List (String × Json) →
    Option (Json × List Char)
  | 0, _, _ => none
  | fuel + 1, cs, acc =>
    let cs := skipJsonWs cs
    match cs with
    | '"' :: rest =>
      match parseJsonStr [] rest with
      | none => none
      | some (key, rest2) =>
        match skipJsonWs rest2 with
        | ':' :: rest3 =>
          match parseJsonValue fuel rest3 with
          | none => none
          | some (v, rest4) =>
            match skipJsonWs rest4 with
            | ',' :: r5 => parseJsonObjFields fuel r5 ((key, v) :: acc)
            | '\x7d' :: r5 => some (.obj ((key, v) :: acc).reverse, r5)
            | _ => none
        | _ => none
    | _ => none

end

/-- `JSON.parse`: parse one value and require only whitespace after it. Two
fuel units per character bound the recursion (each value or separator step
consumes at least one character). -/
def jsonParse (s : String) : Option Json :=
  let cs := s.toList
  match parseJsonValue (2 * cs.length + 4) cs with
  | some (v, rest) => if (skipJsonWs rest).isEmpty then some v else none
  | none => none

/-- Property access `value.key` on a parsed JSON value: defined only for
objects (last duplicate key wins, as in JavaScript); everything else gives
`undefined`. -/
def jsonLookup : Json → String → Option Json
  | .obj fs, k => (fs.reverse.find? (fun p => p.1 == k)).map (·.2)
  | _, _ => none

/-- JavaScript truthiness of a JSON value. -/
def jsTruthy : Json → Bool
  | .null => false
  | .bool b => b
  | .num n => n != 0
  | .str s => s != ""
  | .arr _ => true
  | .obj _ => true

mutual

/-- JavaScript `String(value)` on a parsed JSON value: strings unchanged,
numbers in decimal, arrays joined by commas (with `null` elements becoming
empty), plain objects as `[object Object]`. -/
def jsString : Json → String
  | .null => "null"
  | .bool true => "true"
  | .bool false => "false"
  | .num n => toString n
  | .str s => s
  | .arr es => String.intercalate "," (jsStringArrElems es)
  | .obj _ => "[object Object]"

/-- `Array.prototype.join` element conversion (`null` joins as empty). -/
def jsStringArrElems : List Json → List String
  | [] => []
  | .null :: es => "" :: jsStringArrElems es
  | e :: es => jsString e :: jsStringArrElems es

end

/-- Two-digit uppercase-free hexadecimal rendering for control escapes. -/
def hexDigitChar (n : Nat) : Char :=
  if n < 10 then Char.ofNat (48 + n) else Char.ofNat (87 + n)

/-- JSON string-literal escaping for `JSON.stringify`. -/
def jsonQuoteChar (c : Char) : List Char :=
  if c = '"' then ['\\', '"']
  else if c = '\\' then ['\\', '\\']
  else if c = '\n' then ['\\', 'n']
  else if c = '\r' then ['\\', 'r']
  else if c = '\t' then ['\\', 't']
  else if c = '\x08' then ['\\', 'b']
  else if c = '\x0c' then ['\\', 'f']
  else if c.toNat < 32 then
    ['\\', 'u', '0', '0', hexDigitChar (c.toNat / 16), hexDigitChar (c.toNat % 16)]
  else [c]

/-- Quote a string as a JSON string literal. -/
def jsonQuote (s : String) : String :=
  "\"" ++ String.mk (s.toList.flatMap jsonQuoteChar) ++ "\""

mutual

/-- `JSON.stringify` (compact form, as called with a single argument). -/
def jsonStringify : Json → String
  | .null => "null"
  | .bool true => "true"
  | .bool false => "false"
  | .num n => toString n
  | .str s => jsonQuote s
  | .arr es => "[" ++ String.intercalate "," (jsonStringifyElems es) ++ "]"
  | .obj fs => "\x7b" ++ String.intercalate "," (jsonStringifyFields fs) ++ "\x7d"

/-- Stringify array elements. -/
def jsonStringifyElems : List Json → List String
  | [] => []
  | e :: es => jsonStringify e :: jsonStringifyElems es

/-- Stringify object fields. -/
def jsonStringifyFields : List (String × Json) → List String
  | [] => []
  | (k, v) :: fs => (jsonQuote k ++ ":" ++ jsonStringify v) :: jsonStringifyFields fs

end

/-! ## OpenCode response parser (src/services/opencode/parser.ts) -/

/-- Characters removed by JavaScript `trim` (ASCII fragment). -/
def jsTrimChar (c : Char) : Bool :=
  c == ' ' || c == '\t' || c == '\n' || c == '\r' || c == '\x0b' || c == '\x0c'

/-- `s.trim()`. -/
def jsTrim (s : String) : String :=
  String.mk (((s.toList.dropWhile jsTrimChar).reverse.dropWhile jsTrimChar).reverse)

/-- Strict string equality of a possibly-absent JSON value with a string
literal (`value === 'text'`). -/
def jsonIsStr (v : Option Json) (s : String) : Bool :=
  match v with
  | some (.str t) => t == s
  | _ => false

/-- `extractTextFromEvents`: for every nonblank line that parses as a JSON
event of `type` `text` with a truthy `part?.text`, collect that text value;
join the collected values with newlines, or report `null` when none. -/
def extractTextFromEvents (output : String) : Option String :=
  let lines := ((splitOnChar '\n' output.toList).map String.mk).filter
    (fun line => jsTrim line != "")
  let textParts : List Json := lines.filterMap (fun line =>
    match jsonParse line with
    | none => none
    | some event =>
      if jsonIsStr (jsonLookup event "type") "text" then
        match jsonLookup event "part" with
        | none => none
        | some .null => none
        | some pj =>
          match jsonLookup pj "text" with
          | none => none
          | some t => if jsTruthy t then some t else none
      else none)
  if textParts.isEmpty then none
  else some (String.intercalate "\n" (textParts.map jsString))

/-- `textContent || output`: the extracted text unless it is absent or
empty (the only falsy string). -/
def contentToParse (output : String) : String :=
  match extractTextFromEvents output with
  | some t => if t = "" then output else t
  | none => output

/-- Index of the first occurrence of `needle`. -/
def findSubIdx (needle : List Char) : List Char → Option Nat
  | [] => if needle.isEmpty then some 0 else none
  | c :: rest =>
    if needle.isPrefixOf (c :: rest) then some 0
    else (findSubIdx needle rest).map (· + 1)

/-- Shared model of the two fenced-block regular expressions
(`/```json\s*([\s\S]*?)```/` and `/```\s*([\s\S]*?)```/`): the capture of
the leftmost match runs from the first occurrence of the opening fence to
the first closing triple backtick after it; the `\s*`/lazy-capture split is
immaterial because the caller trims the capture. If the first opening fence
has no closing fence, no later one does either (a closing for a later
opening would also close the first), so the whole pattern fails. -/
def fencedCapture (fence : List Char) (cs : List Char) : Option (List Char) :=
  match findSubIdx fence cs with
  | none => none
  | some i =>
    let after := cs.drop (i + fence.length)
    match findSubIdx "```".toList after with
    | none => none
    | some j => some (after.take j)

/-- `\s` of the summary regular expression (ASCII fragment). -/
def jsWsChar (c : Char) : Bool :=
  c == ' ' || c == '\t' || c == '\n' || c == '\r' || c == '\x0b' || c == '\x0c'

/-- The lookahead `(?=\s*$|\s*```|$)` of the summary regular expression. -/
def summaryLookaheadOk (rest : List Char) : Bool :=
  let r := rest.dropWhile jsWsChar
  r.isEmpty || startsWithStr "```" r

/-- Offset of the first closing brace whose lookahead holds (the lazy
`[\s\S]*?\}` part of the summary regular expression). -/
def findCloseBrace : List Char → Option Nat
  | [] => none
  | c :: rest =>
    if c = '\x7d' ∧ summaryLookaheadOk rest then some 0
    else (findCloseBrace rest).map (· + 1)

/-- Match the deterministic prefix `\{\s*"summary"\s*:\s*"` of the summary
regular expression at the head of `cs`, returning how many characters it
consumed. -/
def summaryPrefixMatch (cs : List Char) : Option Nat :=
  match cs with
  | '\x7b' :: rest =>
    let r1 := rest.dropWhile jsWsChar
    if startsWithStr "\"summary\"" r1 then
      let r3 := (r1.drop 9).dropWhile jsWsChar
      match r3 with
      | ':' :: r4 =>
        match r4.dropWhile jsWsChar with
        | '"' :: r6 => some (cs.length - r6.length)
        | _ => none
      | _ => none
    else none
  | _ => none

/-- Leftmost match of `/\{\s*"summary"\s*:\s*"[\s\S]*?\}(?=\s*$|\s*```|$)/`:
try each start position; where the prefix matches, extend lazily to the
first acceptable closing brace, else advance the start. -/
def summaryMatch : List Char → Option (List Char)
  | [] => none
  | c :: rest =>
    match summaryPrefixMatch (c :: rest) with
    | some consumed =>
      match findCloseBrace ((c :: rest).drop consumed) with
      | some j => some ((c :: rest).take (consumed + j + 1))
      | none => summaryMatch rest
    | none => summaryMatch rest

/-- The scanning loop of `extractBalancedJson`, carrying the depth,
in-string and escaped flags of the source. -/
def extractBalancedLoop : List Char → Nat → Bool → Bool → List Char →
    Option (List Char)
  | [], _, _, _, _ => none
  | c :: rest, depth, inString, escaped, acc =>
    if escaped then extractBalancedLoop rest depth inString false (acc ++ [c])
    else if (c == '\\') && inString then
      extractBalancedLoop rest depth inString true (acc ++ [c])
    else if c == '"' then extractBalancedLoop rest depth (!inString) false (acc ++ [c])
    else if inString then extractBalancedLoop rest depth inString false (acc ++ [c])
    else
      let depth1 := if c == '\x7b' then depth + 1 else depth
      let depth2 := if c == '\x7d' then depth1 - 1 else depth1
      if depth2 = 0 then some (acc ++ [c])
      else extractBalancedLoop rest depth2 false false (acc ++ [c])

/-- `extractBalancedJson`: brace-balanced scan from the first opening brace,
respecting string literals and escapes. -/
def extractBalancedJson (text : List Char) : Option (List Char) :=
  match findSubIdx ['\x7b'] text with
  | none => none
  | some startIdx => extractBalancedLoop (text.drop startIdx) 0 false false []

/-- `extractJson`: the five extraction strategies in source order, each a
regex-or-scan candidate followed by a `JSON.parse` attempt. -/
def extractJson (output : String) : Option Json :=
  match (fencedCapture "```json".toList output.toList).bind
      (fun cap => jsonParse (jsTrim (String.mk cap))) with
  | some j => some j
  | none =>
    match (fencedCapture "```".toList output.toList).bind
        (fun cap => jsonParse (jsTrim (String.mk cap))) with
    | some j => some j
    | none =>
      match jsonParse (jsTrim output) with
      | some j => some j
      | none =>
        match (summaryMatch output.toList).bind
            (fun m => jsonParse (String.mk m)) with
        | some j => some j
        | none =>
          (extractBalancedJson output.toList).bind (fun m => jsonParse (String.mk m))

/-- `getString` (empty string for a missing or non-string value). -/
def getString : Option Json → String
  | some (.str s) => s
  | _ => ""

/-- `getOptionalString`. -/
def getOptionalString : Option Json → Option String
  | some (.str s) => some s
  | _ => none

/-- `getOptionalNumber`. -/
def getOptionalNumber : Option Json → Option Int
  | some (.num n) => some n
  | _ => none

/-- `String(value)` where `value` may be `undefined`. -/
def jsStringU : Option Json → String
  | none => "undefined"
  | some j => jsString j

/-- `normalizeVerdict`. -/
def normalizeVerdict (value : Option Json) : ReviewVerdict :=
  let str := asciiLower (jsStringU value)
  if containsSub str "approve" then .approve
  else if containsSub str "request" || containsSub str "change" then .request_changes
  else .comment

/-- `normalizeSeverity`. -/
def normalizeSeverity (value : Option Json) : ReviewSeverity :=
  let str := asciiLower (jsStringU value)
  if containsSub str "critical" || containsSub str "error" then .critical
  else if containsSub str "warn" then .warning
  else .info

/-- `normalizeIssues`: non-arrays give `[]`; non-object elements are
skipped; optional fields are kept only when truthy. -/
def normalizeIssues (value : Option Json) : List ReviewIssue :=
  match value with
  | some (.arr items) =>
    items.filterMap (fun item =>
      match item with
      | .obj _ =>
        some
          { severity := normalizeSeverity (jsonLookup item "severity")
            file := match getOptionalString (jsonLookup item "file") with
              | some s => if s != "" then some s else none
              | none => none
            line := match getOptionalNumber (jsonLookup item "line") with
              | some n => if n != 0 then some n else none
              | none => none
            endLine := match getOptionalNumber (jsonLookup item "endLine") with
              | some n => if n != 0 then some n else none
              | none => none
            message := jsOrStr (getString (jsonLookup item "message")) "Issue detected"
            suggestion := match getOptionalString (jsonLookup item "suggestion") with
              | some s => if s != "" then some s else none
              | none => none }
      | _ => none)
  | _ => []

/-- The per-element body of `normalizeSuggestions`: a non-object element is
coerced to a suggestion whose message is the stringified value. -/
def normalizeSuggestionItem (item : Json) : ReviewSuggestion :=
  match item with
  | .obj _ =>
    { file := getOptionalString (jsonLookup item "file")
      line := getOptionalNumber (jsonLookup item "line")
      message := jsOrStr (getString (jsonLookup item "message")) (jsString item)
      code := getOptionalString (jsonLookup item "code") }
  | _ => { file := none, line := none, message := jsString item, code := none }

/-- `normalizeSuggestions`. -/
def normalizeSuggestions (value : Option Json) : List ReviewSuggestion :=
  match value with
  | some (.arr items) => items.map normalizeSuggestionItem
  | _ => []

/-- `normalizePositives`. -/
def normalizePositives (value : Option Json) : Option (List String) :=
  match value with
  | some (.arr items) => some (items.map jsString)
  | _ => none

/-- `createFallbackReview`. -/
def createFallbackReview (rawOutput : String) : AIReviewOutput :=
  { summary := "Review completed. See raw output for details."
    verdict := .comment
    issues := []
    suggestions := [{ file := none, line := none, message := jsSlice500 rawOutput, code := none }]
    positives := none }

/-- `validateAndNormalizeReview`: `isObject` admits exactly `Json.obj`
(`null` and arrays are excluded as in the source). -/
def validateAndNormalizeReview (data : Json) : AIReviewOutput :=
  match data with
  | .obj _ =>
    { summary := jsOrStr (getString (jsonLookup data "summary")) "Review completed"
      verdict := normalizeVerdict (jsonLookup data "verdict")
      issues := normalizeIssues (jsonLookup data "issues")
      suggestions := normalizeSuggestions (jsonLookup data "suggestions")
      positives := normalizePositives (jsonLookup data "positives") }
  | _ => createFallbackReview (jsonStringify data)

/-- `parseReviewResponse` (logging omitted). -/
def parseReviewResponse (output : String) : AIReviewOutput :=
  let ctp := contentToParse output
  match extractJson ctp with
  | none => createFallbackReview ctp
  | some json => validateAndNormalizeReview json

/-! ## Helper lemmas -/

theorem find?_append_none {α : Type} (p : α → Bool) {m : List α}
    (h : m.find? p = none) (l : List α) : (m ++ l).find? p = l.find? p := by
  rw [List.find?_append, h, Option.none_or]

theorem find?_append_some {α : Type} (p : α → Bool) {m : List α} {q : α}
    (h : m.find? p = some q) (l : List α) : (m ++ l).find? p = some q := by
  rw [List.find?_append, h]; rfl

theorem find?_map_set {β : Type} {m : List (String × β)} {k : String} {v : β}
    (h : (m.find? (fun q => q.1 == k)).isSome = true) :
    (m.map (fun q => if q.1 == k then (k, v) else q)).find? (fun q => q.1 == k)
      = some (k, v) := by
  induction m with
  | nil => cases h
  | cons q m ih =>
    by_cases hq : (q.1 == k) = true
    · rw [List.map_cons, if_pos hq]
      exact @List.find?_cons_of_pos _ (fun q => q.1 == k) (k, v) _ (by simp)
    · rw [@List.find?_cons_of_neg _ (fun q => q.1 == k) q m hq] at h
      rw [List.map_cons, if_neg hq,
        @List.find?_cons_of_neg _ (fun q => q.1 == k) q _ hq]
      exact ih h

theorem find?_map_set_ne {β : Type} {k k' : String} (hne : k' ≠ k)
    (m : List (String × β)) (v : β) :
    (m.map (fun q => if q.1 == k then (k, v) else q)).find? (fun q => q.1 == k')
      = m.find? (fun q => q.1 == k') := by
  induction m with
  | nil => rfl
  | cons q m ih =>
    by_cases hq : (q.1 == k) = true
    · have hkk' : ¬((k : String) == k') = true := by
        simp only [beq_iff_eq]
        exact fun h => hne h.symm
      have hqk' : ¬(q.1 == k') = true := by
        have hq1 : q.1 = k := by simpa using hq
        rw [hq1]
        exact hkk'
      rw [List.map_cons, if_pos hq,
        @List.find?_cons_of_neg _ (fun q => q.1 == k') (k, v) _ hkk',
        @List.find?_cons_of_neg _ (fun q => q.1 == k') q m hqk']
      exact ih
    · rw [List.map_cons, if_neg hq]
      by_cases hp : (q.1 == k') = true
      · rw [@List.find?_cons_of_pos _ (fun q => q.1 == k') q _ hp,
          @List.find?_cons_of_pos _ (fun q => q.1 == k') q m hp]
      · rw [@List.find?_cons_of_neg _ (fun q => q.1 == k') q _ hp,
          @List.find?_cons_of_neg _ (fun q => q.1 == k') q m hp]
        exact ih

theorem jsMapGet_set_self {β : Type} (m : List (String × β)) (k : String) (v : β) :
    jsMapGet (jsMapSet m k v) k = some v := by
  by_cases hs : (m.find? (fun q => q.1 == k)).isSome = true
  · simp only [jsMapGet, jsMapSet, if_pos hs, find?_map_set hs]; rfl
  · have hnone : m.find? (fun q => q.1 == k) = none :=
      Option.not_isSome_iff_eq_none.mp (by simpa using hs)
    simp only [jsMapGet, jsMapSet, if_neg hs, find?_append_none _ hnone]
    simp [List.find?]

theorem jsMapGet_set_ne {β : Type} {k k' : String} (hne : k' ≠ k)
    (m : List (String × β)) (v : β) :
    jsMapGet (jsMapSet m k v) k' = jsMapGet m k' := by
  by_cases hs : (m.find? (fun q => q.1 == k)).isSome = true
  · simp only [jsMapGet, jsMapSet, if_pos hs, find?_map_set_ne hne]
  · have hkk' : ¬((k : String) == k') = true := by
      simp only [beq_iff_eq]
      exact fun h => hne h.symm
    rcases hf : m.find? (fun q => q.1 == k') with _ | q
    · simp only [jsMapGet, jsMapSet, if_neg hs, find?_append_none _ hf, hf]
      rw [@List.find?_cons_of_neg _ (fun q => q.1 == k') (k, v) _ hkk']
      rfl
    · simp only [jsMapGet, jsMapSet, if_neg hs, find?_append_some _ hf, hf]

theorem jsMapGet_delete_self {β : Type} (m : List (String × β)) (k : String) :
    jsMapGet (jsMapDelete m k) k = none := by
  induction m with
  | nil => rfl
  | cons q m ih =>
    by_cases hq : (q.1 == k) = true
    · have hq' : ¬(q.1 != k) = true := by
        simp only [bne, Bool.not_eq_true', Bool.not_eq_false]
        exact hq
      simp only [jsMapDelete] at ih ⊢
      rw [@List.filter_cons_of_neg _ (fun q => q.1 != k) q m hq']
      exact ih
    · have hq' : (q.1 != k) = true := by
        simp only [bne, Bool.not_eq_true']
        exact Bool.eq_false_iff.mpr (fun hcontra => hq hcontra)
      simp only [jsMapDelete, jsMapGet] at ih ⊢
      rw [@List.filter_cons_of_pos _ (fun q => q.1 != k) q m hq',
        @List.find?_cons_of_neg _ (fun q => q.1 == k) q _ hq]
      exact ih

theorem jsMapGet_delete_ne {β : Type} {k k' : String} (hne : k' ≠ k)
    (m : List (String × β)) :
    jsMapGet (jsMapDelete m k) k' = jsMapGet m k' := by
  induction m with
  | nil => rfl
  | cons q m ih =>
    by_cases hq : (q.1 == k) = true
    · have hq' : ¬(q.1 != k) = true := by
        simp only [bne, Bool.not_eq_true', Bool.not_eq_false]
        exact hq
      have hqk' : ¬(q.1 == k') = true := by
        have hq1 : q.1 = k := by simpa using hq
        simp only [hq1, beq_iff_eq]
        exact fun h => hne h.symm
      simp only [jsMapDelete, jsMapGet] at ih ⊢
      rw [@List.filter_cons_of_neg _ (fun q => q.1 != k) q m hq',
        @List.find?_cons_of_neg _ (fun q => q.1 == k') q m hqk']
      exact ih
    · have hq' : (q.1 != k) = true := by
        simp only [bne, Bool.not_eq_true']
        exact Bool.eq_false_iff.mpr (fun hcontra => hq hcontra)
      simp only [jsMapDelete, jsMapGet] at ih ⊢
      rw [@List.filter_cons_of_pos _ (fun q => q.1 != k) q m hq']
      by_cases hp : (q.1 == k') = true
      · rw [@List.find?_cons_of_pos _ (fun q => q.1 == k') q _ hp,
          @List.find?_cons_of_pos _ (fun q => q.1 == k') q m hp]
      · rw [@List.find?_cons_of_neg _ (fun q => q.1 == k') q _ hp,
          @List.find?_cons_of_neg _ (fun q => q.1 == k') q m hp]
        exact ih

theorem jsMapGet_eq_none_iff {β : Type} (m : List (String × β)) (k : String) :
    jsMapGet m k = none ↔ k ∉ jsMapKeys m := by
  induction m with
  | nil => simp [jsMapGet, jsMapKeys]
  | cons q m ih =>
    by_cases hq : (q.1 == k) = true
    · have hq1 : q.1 = k := by simpa using hq
      simp only [jsMapGet]
      rw [@List.find?_cons_of_pos _ (fun q => q.1 == k) q m hq]
      simp [jsMapKeys, hq1]
    · have hq1 : q.1 ≠ k := by simpa using hq
      simp only [jsMapGet] at ih ⊢
      rw [@List.find?_cons_of_neg _ (fun q => q.1 == k) q m hq]
      simp only [jsMapKeys, List.map_cons, List.mem_cons, not_or] at ih ⊢
      constructor
      · intro h
        exact ⟨fun he => hq1 he.symm, ih.mp h⟩
      · intro h
        exact ih.mpr h.2

theorem jsMapGet_isSome_of_mem_keys {β : Type} {m : List (String × β)} {k : String}
    (h : k ∈ jsMapKeys m) : jsMapGet m k ≠ none := by
  intro hn
  exact (jsMapGet_eq_none_iff m k).mp hn h

theorem contains_eq_true_iff (l : List String) (a : String) :
    l.contains a = true ↔ a ∈ l :=
  List.elem_iff

theorem contains_eq_false_iff (l : List String) (a : String) :
    l.contains a = false ↔ a ∉ l := by
  rw [← Bool.not_eq_true, not_iff_not]
  exact contains_eq_true_iff l a

theorem filterMap_eq_nil_of_all {α β : Type} {f : α → Option β} :
    ∀ {l : List α}, (∀ x ∈ l, f x = none) → l.filterMap f = []
  | [], _ => rfl
  | x :: xs, h => by
    rw [List.filterMap_cons, h x (List.mem_cons_self x xs)]
    exact filterMap_eq_nil_of_all (fun y hy => h y (List.mem_cons_of_mem x hy))

theorem filter_eq_nil_of_all {α : Type} {p : α → Bool} :
    ∀ {l : List α}, (∀ x ∈ l, p x = false) → l.filter p = []
  | [], _ => rfl
  | x :: xs, h => by
    rw [List.filter_cons_of_neg (by simp [h x (List.mem_cons_self x xs)])]
    exact filter_eq_nil_of_all (fun y hy => h y (List.mem_cons_of_mem x hy))

/-! ### Step lemmas for the PR store operations -/

theorem updateExistingPR_get_self (st : PRStore) (ex : PRState) (pr : PullRequest)
    (b : Option Bool) :
    jsMapGet (updateExistingPR st ex pr b).2 pr.id =
      some { ex with pr := pr, needsMyReview := b.getD ex.needsMyReview } :=
  jsMapGet_set_self st pr.id _

theorem updateExistingPR_get_ne {id : String} {pr : PullRequest} (hne : id ≠ pr.id)
    (st : PRStore) (ex : PRState) (b : Option Bool) :
    jsMapGet (updateExistingPR st ex pr b).2 id = jsMapGet st id :=
  jsMapGet_set_ne hne st _

theorem addPR_get_ne {id : String} {pr : PullRequest} (hne : id ≠ pr.id)
    (st : PRStore) (b : Bool) :
    jsMapGet (addPR st pr b).2 id = jsMapGet st id := by
  cases hget : jsMapGet st pr.id with
  | some ex => simp only [addPR, hget]; exact updateExistingPR_get_ne hne st ex (some b)
  | none => simp only [addPR, hget]; exact jsMapGet_set_ne hne st _

theorem addPR_get_self_none {pr : PullRequest} {st : PRStore}
    (hget : jsMapGet st pr.id = none) (b : Bool) :
    jsMapGet (addPR st pr b).2 pr.id = some ⟨pr, .new, b, none, none, none⟩ := by
  simp only [addPR, hget]
  exact jsMapGet_set_self st pr.id _

theorem addPR_get_self_some {pr : PullRequest} {st : PRStore} {ex : PRState}
    (hget : jsMapGet st pr.id = some ex) (b : Bool) :
    jsMapGet (addPR st pr b).2 pr.id =
      some { ex with pr := pr, needsMyReview := b } := by
  simp only [addPR, hget]
  exact updateExistingPR_get_self st ex pr (some b)

/-! ### Lemmas about the first (upsert) loop of `syncPRs` -/

theorem syncAddLoop_added (E M : List String) :
    ∀ (prs : List PullRequest) (acc : List String) (st : PRStore),
      (syncAddLoop E M prs acc st).1 =
        acc ++ prs.filterMap (fun pr => if E.contains pr.id then none else some pr.id)
  | [], acc, st => by simp [syncAddLoop]
  | pr :: rest, acc, st => by
    by_cases hc : E.contains pr.id = true
    · simp only [syncAddLoop, hc, if_true, List.filterMap_cons]
      cases hget : jsMapGet st pr.id with
      | some ex => rw [syncAddLoop_added E M rest acc _]
      | none => rw [syncAddLoop_added E M rest acc st]
    · simp only [syncAddLoop, hc, if_false, Bool.false_eq_true, List.filterMap_cons]
      rw [syncAddLoop_added E M rest (acc ++ [pr.id]) _, List.append_assoc]
      rfl

theorem syncAddLoop_get_notmem (E M : List String) {id : String} :
    ∀ {prs : List PullRequest}, id ∉ prs.map (·.id) →
    ∀ (acc : List String) (st : PRStore),
      jsMapGet (syncAddLoop E M prs acc st).2 id = jsMapGet st id := by
  intro prs
  induction prs with
  | nil => intro _ acc st; rfl
  | cons pr rest ih =>
    intro h acc st
    have hne : id ≠ pr.id := by
      intro he
      exact h (by simp [he])
    have hrest : id ∉ rest.map (·.id) := by
      intro hr
      exact h (List.mem_cons_of_mem _ hr)
    by_cases hc : E.contains pr.id = true
    · simp only [syncAddLoop, hc, if_true]
      cases hget : jsMapGet st pr.id with
      | some ex => rw [ih hrest, updateExistingPR_get_ne hne]
      | none => exact ih hrest acc st
    · simp only [syncAddLoop, hc, if_false, Bool.false_eq_true]
      rw [ih hrest, addPR_get_ne hne]

theorem syncAddLoop_preserve (E M : List String) {id : String} :
    ∀ (prs : List PullRequest) (acc : List String) (st : PRStore) (st0 : PRState),
      jsMapGet st id = some st0 →
      ∃ st', jsMapGet (syncAddLoop E M prs acc st).2 id = some st' ∧
        st'.status = st0.status ∧ st'.seenAt = st0.seenAt ∧
        st'.reviewStartedAt = st0.reviewStartedAt ∧
        st'.reviewCompletedAt = st0.reviewCompletedAt := by
  intro prs
  induction prs with
  | nil => intro _ st st0 h; exact ⟨st0, h, rfl, rfl, rfl, rfl⟩
  | cons pr rest ih =>
    intro acc st st0 h
    by_cases hid : pr.id = id
    · subst hid
      by_cases hc : E.contains pr.id = true
      · simp only [syncAddLoop, hc, if_true, h]
        have h1 := updateExistingPR_get_self st st0 pr
          (some (M.contains pr.id))
        obtain ⟨st', hget, h2, h3, h4, h5⟩ := ih _ _ _ h1
        exact ⟨st', hget, h2, h3, h4, h5⟩
      · simp only [syncAddLoop, hc, if_false, Bool.false_eq_true]
        have h1 := addPR_get_self_some h (M.contains pr.id)
        obtain ⟨st', hget, h2, h3, h4, h5⟩ := ih _ _ _ h1
        exact ⟨st', hget, h2, h3, h4, h5⟩
    · have hne : id ≠ pr.id := fun he => hid he.symm
      by_cases hc : E.contains pr.id = true
      · simp only [syncAddLoop, hc, if_true]
        cases hget : jsMapGet st pr.id with
        | some ex =>
          have hh : jsMapGet (updateExistingPR st ex pr (some (M.contains pr.id))).2 id
              = some st0 := by
            rw [updateExistingPR_get_ne hne]; exact h
          exact ih _ _ st0 hh
        | none => exact ih _ _ st0 h
      · simp only [syncAddLoop, hc, if_false, Bool.false_eq_true]
        have hh : jsMapGet (addPR st pr (M.contains pr.id)).2 id = some st0 := by
          rw [addPR_get_ne hne]; exact h
        exact ih _ _ st0 hh

theorem syncAddLoop_new (E M : List String) {id : String}
    (hE : E.contains id = false) :
    ∀ (prs : List PullRequest) (acc : List String) (st : PRStore),
      id ∈ prs.map (·.id) → jsMapGet st id = none →
      ∃ st', jsMapGet (syncAddLoop E M prs acc st).2 id = some st' ∧
        st'.status = .new ∧ st'.seenAt = none ∧
        st'.reviewStartedAt = none ∧ st'.reviewCompletedAt = none := by
  intro prs
  induction prs with
  | nil => intro _ _ hmem _; cases hmem
  | cons pr rest ih =>
    intro acc st hmem hnone
    by_cases hid : pr.id = id
    · subst hid
      simp only [syncAddLoop, hE, if_false, Bool.false_eq_true]
      have h1 := addPR_get_self_none hnone (M.contains pr.id)
      obtain ⟨st', hget, h2, h3, h4, h5⟩ := syncAddLoop_preserve E M rest _ _ _ h1
      exact ⟨st', hget, h2, h3, h4, h5⟩
    · have hne : id ≠ pr.id := fun he => hid he.symm
      have hrest : id ∈ rest.map (·.id) := by
        rcases (by simpa using hmem : id = pr.id ∨ ∃ a ∈ rest, a.id = id) with hh | ⟨a, ha, haid⟩
        · exact absurd hh.symm hid
        · exact List.mem_map.mpr ⟨a, ha, haid⟩
      by_cases hc : E.contains pr.id = true
      · simp only [syncAddLoop, hc, if_true]
        cases hget : jsMapGet st pr.id with
        | some ex =>
          have hh : jsMapGet (updateExistingPR st ex pr (some (M.contains pr.id))).2 id = none := by
            rw [updateExistingPR_get_ne hne]; exact hnone
          exact ih _ _ hrest hh
        | none => exact ih _ _ hrest hnone
      · simp only [syncAddLoop, hc, if_false, Bool.false_eq_true]
        have hh : jsMapGet (addPR st pr (M.contains pr.id)).2 id = none := by
          rw [addPR_get_ne hne]; exact hnone
        exact ih _ _ hrest hh

theorem syncAddLoop_pr (E M : List String) {id : String} :
    ∀ (prs : List PullRequest) (acc : List String) (st : PRStore) (st0 : PRState),
      jsMapGet st id = some st0 → id ∈ prs.map (·.id) →
      ∃ st' p, jsMapGet (syncAddLoop E M prs acc st).2 id = some st' ∧
        p ∈ prs ∧ p.id = id ∧ st'.pr = p := by
  intro prs
  induction prs with
  | nil => intro _ _ _ _ hmem; cases hmem
  | cons pr rest ih =>
    intro acc st st0 h hmem
    by_cases hid : pr.id = id
    · subst hid
      by_cases hrest : pr.id ∈ rest.map (·.id)
      · by_cases hc : E.contains pr.id = true
        · simp only [syncAddLoop, hc, if_true, h]
          obtain ⟨st', p, hget, hp, hpid, hpr⟩ :=
            ih _ _ _ (updateExistingPR_get_self st st0 pr (some (M.contains pr.id))) hrest
          exact ⟨st', p, hget, List.mem_cons_of_mem pr hp, hpid, hpr⟩
        · simp only [syncAddLoop, hc, if_false, Bool.false_eq_true]
          obtain ⟨st', p, hget, hp, hpid, hpr⟩ :=
            ih _ _ _ (addPR_get_self_some h (M.contains pr.id)) hrest
          exact ⟨st', p, hget, List.mem_cons_of_mem pr hp, hpid, hpr⟩
      · by_cases hc : E.contains pr.id = true
        · simp only [syncAddLoop, hc, if_true, h]
          refine ⟨{ st0 with pr := pr, needsMyReview := (some (M.contains pr.id)).getD st0.needsMyReview }, pr, ?_, List.mem_cons_self pr rest, rfl, rfl⟩
          rw [syncAddLoop_get_notmem E M hrest]
          exact updateExistingPR_get_self st st0 pr (some (M.contains pr.id))
        · simp only [syncAddLoop, hc, if_false, Bool.false_eq_true]
          refine ⟨{ st0 with pr := pr, needsMyReview := M.contains pr.id }, pr, ?_, List.mem_cons_self pr rest, rfl, rfl⟩
          rw [syncAddLoop_get_notmem E M hrest]
          exact addPR_get_self_some h (M.contains pr.id)
    · have hne : id ≠ pr.id := fun he => hid he.symm
      have hrest : id ∈ rest.map (·.id) := by
        rcases (by simpa using hmem : id = pr.id ∨ ∃ a ∈ rest, a.id = id) with hh | ⟨a, ha, haid⟩
        · exact absurd hh.symm hid
        · exact List.mem_map.mpr ⟨a, ha, haid⟩
      by_cases hc : E.contains pr.id = true
      · simp only [syncAddLoop, hc, if_true]
        cases hget : jsMapGet st pr.id with
        | some ex =>
          have hh : jsMapGet (updateExistingPR st ex pr (some (M.contains pr.id))).2 id
              = some st0 := by
            rw [updateExistingPR_get_ne hne]; exact h
          obtain ⟨st', p, hget2, hp, hpid, hpr⟩ := ih _ _ st0 hh hrest
          exact ⟨st', p, hget2, List.mem_cons_of_mem pr hp, hpid, hpr⟩
        | none =>
          obtain ⟨st', p, hget2, hp, hpid, hpr⟩ := ih _ _ st0 h hrest
          exact ⟨st', p, hget2, List.mem_cons_of_mem pr hp, hpid, hpr⟩
      · simp only [syncAddLoop, hc, if_false, Bool.false_eq_true]
        have hh : jsMapGet (addPR st pr (M.contains pr.id)).2 id = some st0 := by
          rw [addPR_get_ne hne]; exact h
        obtain ⟨st', p, hget2, hp, hpid, hpr⟩ := ih _ _ st0 hh hrest
        exact ⟨st', p, hget2, List.mem_cons_of_mem pr hp, hpid, hpr⟩

theorem removePR_get_self (st : PRStore) (i : String) :
    jsMapGet (removePR st i).2 i = none :=
  jsMapGet_delete_self st i

theorem removePR_get_ne {id i : String} (hne : id ≠ i) (st : PRStore) :
    jsMapGet (removePR st i).2 id = jsMapGet st id :=
  jsMapGet_delete_ne hne st

/-! ### Lemmas about the second (removal) loop of `syncPRs` -/

theorem syncRemoveLoop_removed (N : List String) :
    ∀ (ids acc : List String) (st : PRStore),
      (syncRemoveLoop N ids acc st).1 =
        acc ++ ids.filter (fun id => !(N.contains id))
  | [], acc, st => by simp [syncRemoveLoop]
  | i :: rest, acc, st => by
    by_cases hi : N.contains i = true
    · simp only [syncRemoveLoop, hi, if_true]
      rw [syncRemoveLoop_removed N rest acc st,
        List.filter_cons_of_neg (by rw [hi]; decide)]
    · simp only [syncRemoveLoop, hi, if_false, Bool.false_eq_true]
      have hfalse : N.contains i = false := Bool.eq_false_iff.mpr hi
      rw [syncRemoveLoop_removed N rest (acc ++ [i]) _,
        List.filter_cons_of_pos (by rw [hfalse]; rfl),
        List.append_assoc]
      rfl

theorem syncRemoveLoop_get_keep (N : List String) {id : String}
    (hN : N.contains id = true) :
    ∀ (ids acc : List String) (st : PRStore),
      jsMapGet (syncRemoveLoop N ids acc st).2 id = jsMapGet st id := by
  intro ids
  induction ids with
  | nil => intro _ _; rfl
  | cons i rest ih =>
    intro acc st
    by_cases hi : N.contains i = true
    · simp only [syncRemoveLoop, hi, if_true]
      exact ih acc st
    · have hne : id ≠ i := by
        intro he
        rw [he] at hN
        exact absurd hN hi
      simp only [syncRemoveLoop, hi, if_false, Bool.false_eq_true]
      rw [ih _ _, removePR_get_ne hne]

theorem syncRemoveLoop_none_stable (N : List String) {id : String} :
    ∀ (ids acc : List String) (st : PRStore),
      jsMapGet st id = none →
      jsMapGet (syncRemoveLoop N ids acc st).2 id = none := by
  intro ids
  induction ids with
  | nil => intro _ _ h; exact h
  | cons i rest ih =>
    intro acc st h
    by_cases hi : N.contains i = true
    · simp only [syncRemoveLoop, hi, if_true]
      exact ih acc st h
    · simp only [syncRemoveLoop, hi, if_false, Bool.false_eq_true]
      refine ih _ _ ?_
      by_cases hii : id = i
      · subst hii
        exact removePR_get_self st id
      · rw [removePR_get_ne hii st]
        exact h

theorem syncRemoveLoop_deletes (N : List String) {id : String}
    (hN : N.contains id = false) :
    ∀ (ids acc : List String) (st : PRStore),
      id ∈ ids → jsMapGet (syncRemoveLoop N ids acc st).2 id = none := by
  intro ids
  induction ids with
  | nil => intro _ _ hmem; cases hmem
  | cons i rest ih =>
    intro acc st hmem
    by_cases hii : i = id
    · subst hii
      simp only [syncRemoveLoop, hN, if_false, Bool.false_eq_true]
      refine syncRemoveLoop_none_stable N rest _ _ ?_
      exact removePR_get_self st i
    · have hrest : id ∈ rest := by
        rcases List.mem_cons.mp hmem with h | h
        · exact absurd h.symm hii
        · exact h
      by_cases hi : N.contains i = true
      · simp only [syncRemoveLoop, hi, if_true]
        exact ih acc st hrest
      · simp only [syncRemoveLoop, hi, if_false, Bool.false_eq_true]
        exact ih _ _ hrest

theorem le_foldl_max (xs : List Int) (a : Int) : a ≤ xs.foldl max a := by
  induction xs generalizing a with
  | nil => exact le_refl a
  | cons x xs ih =>
    calc a ≤ max a x := le_max_left a x
    _ ≤ xs.foldl max (max a x) := ih (max a x)

theorem mem_le_foldl_max (xs : List Int) (a : Int) :
    ∀ y ∈ xs, y ≤ xs.foldl max a := by
  induction xs generalizing a with
  | nil => intro y hy; cases hy
  | cons x xs ih =>
    intro y hy
    rcases List.mem_cons.mp hy with h | h
    · subst h
      calc y ≤ max a y := le_max_right a y
      _ ≤ xs.foldl max (max a y) := le_foldl_max xs (max a y)
    · exact ih (max a x) y h

theorem foldl_max_mem (xs : List Int) (a : Int) :
    xs.foldl max a = a ∨ xs.foldl max a ∈ xs := by
  induction xs generalizing a with
  | nil => exact Or.inl rfl
  | cons x xs ih =>
    rcases ih (max a x) with h | h
    · rcases max_choice a x with hm | hm
      · exact Or.inl (by simpa [hm] using h)
      · exact Or.inr (by simp only [List.foldl]; rw [h, hm]; exact List.mem_cons_self x xs)
    · exact Or.inr (List.mem_cons_of_mem x h)

theorem maxOfList_mem {l : List Int} {m : Int} (h : maxOfList l = some m) : m ∈ l := by
  cases l with
  | nil => cases h
  | cons x xs =>
    simp only [maxOfList, Option.some.injEq] at h
    subst h
    rcases foldl_max_mem xs x with h | h
    · rw [h]; exact List.mem_cons_self x xs
    · exact List.mem_cons_of_mem x h

theorem maxOfList_ge {l : List Int} {m : Int} (h : maxOfList l = some m) :
    ∀ y ∈ l, y ≤ m := by
  cases l with
  | nil => cases h
  | cons x xs =>
    simp only [maxOfList, Option.some.injEq] at h
    subst h
    intro y hy
    rcases List.mem_cons.mp hy with h | h
    · subst h; exact le_foldl_max xs y
    · exact mem_le_foldl_max xs x y h

theorem maxOfList_none_iff {l : List Int} : maxOfList l = none ↔ l = [] := by
  cases l <;> simp [maxOfList]

theorem findClosestLineBefore_le {n r : Int} {v : List Int}
    (h : findClosestLineBefore n v = some r) : r ≤ n := by
  have hm := maxOfList_mem h
  have := List.mem_filter.mp hm
  exact by simpa using this.2

theorem findClosestLineBefore_mem {n r : Int} {v : List Int}
    (h : findClosestLineBefore n v = some r) : r ∈ v :=
  (List.mem_filter.mp (maxOfList_mem h)).1

theorem findClosestLineBefore_ge {n r : Int} {v : List Int}
    (h : findClosestLineBefore n v = some r) :
    ∀ m ∈ v, m ≤ n → m ≤ r := by
  intro m hm hle
  exact maxOfList_ge h m (List.mem_filter.mpr ⟨hm, by simpa using hle⟩)

theorem findClosestLineBefore_none_iff {n : Int} {v : List Int} :
    findClosestLineBefore n v = none ↔ ¬∃ m ∈ v, m ≤ n := by
  rw [findClosestLineBefore, maxOfList_none_iff, List.filter_eq_nil_iff]
  constructor
  · rintro h ⟨m, hm, hle⟩
    exact h m hm (by simpa using hle)
  · intro h m hm hdec
    exact h ⟨m, hm, by simpa using hdec⟩

theorem parse_filter_agree (ls : List (List Char)) (c : Int) :
    ((parseDiffPatchLines ls c).filter
        (fun l => l.type == .add || l.type == .context)).map (·.lineNumber)
      = validLineNumbersFromSpecLoop ls c := by
  induction ls generalizing c with
  | nil => rfl
  | cons l ls ih =>
    by_cases h1 : startsWithStr "@@" l
    · simp [parseDiffPatchLines, parseSingleLine, validLineNumbersFromSpecLoop, h1, ih]
    · by_cases h2 : startsWithStr "---" l || startsWithStr "+++" l
      · simp [parseDiffPatchLines, parseSingleLine, validLineNumbersFromSpecLoop, h1, h2, ih]
      · by_cases h3 : startsWithStr "\\" l
        · simp [parseDiffPatchLines, parseSingleLine, validLineNumbersFromSpecLoop, h1, h2, h3, ih]
        · by_cases h4 : startsWithStr "+" l
          · simp [parseDiffPatchLines, parseSingleLine, validLineNumbersFromSpecLoop,
              h1, h2, h3, h4, ih]
          · by_cases h5 : startsWithStr "-" l
            · simp [parseDiffPatchLines, parseSingleLine, validLineNumbersFromSpecLoop,
                h1, h2, h3, h4, h5, ih]
            · simp [parseDiffPatchLines, parseSingleLine, validLineNumbersFromSpecLoop,
                h1, h2, h3, h4, h5, ih]

theorem prepareComment_isSome (issue : ReviewIssue) (i : Nat)
    (fm : List (String × PRFile)) :
    (prepareComment issue i fm).isSome =
      (truthyStr issue.file && truthyInt issue.line) := by
  by_cases h1 : truthyStr issue.file = true
  · by_cases h2 : truthyInt issue.line = true
    · simp only [prepareComment, h1, h2, Bool.not_true, Bool.or_self, Bool.false_or,
        Bool.and_self, if_false, Bool.false_eq_true]
      cases hf : jsMapGet fm (issue.file.getD "") with
      | none => simp
      | some file =>
        by_cases hp : truthyStr file.patch = true
        · simp [hp]
        · simp [Bool.eq_false_iff.mpr hp]
    · have h2' : truthyInt issue.line = false := Bool.eq_false_iff.mpr h2
      simp [prepareComment, h1, h2']
  · have h1' : truthyStr issue.file = false := Bool.eq_false_iff.mpr h1
    simp [prepareComment, h1']

theorem prepareComment_selected {issue : ReviewIssue} {i : Nat}
    {fm : List (String × PRFile)} {c : InlineCommentState}
    (h : prepareComment issue i fm = some c) : c.selected = c.isValid := by
  by_cases hg : (!(truthyStr issue.file) || !(truthyInt issue.line)) = true
  · rw [prepareComment, if_pos hg] at h
    cases h
  · rw [prepareComment, if_neg hg] at h
    cases hf : jsMapGet fm (issue.file.getD "") with
    | none =>
      rw [hf] at h
      cases h
      rfl
    | some file =>
      rw [hf] at h
      dsimp only at h
      by_cases hp : (!(truthyStr file.patch)) = true
      · rw [if_pos hp] at h
        cases h
        rfl
      · rw [if_neg hp] at h
        cases h
        rfl

theorem enumFrom_prepare_length (fm : List (String × PRFile)) :
    ∀ (issues : List ReviewIssue) (n : Nat),
      ((List.enumFrom n issues).filterMap (fun p => prepareComment p.2 p.1 fm)).length =
        (issues.filter (fun i => truthyStr i.file && truthyInt i.line)).length := by
  intro issues
  induction issues with
  | nil => intro n; rfl
  | cons issue rest ih =>
    intro n
    rcases hcond : (truthyStr issue.file && truthyInt issue.line) with _ | _
    · have hnone : prepareComment issue n fm = none := by
        have h := prepareComment_isSome issue n fm
        rw [hcond] at h
        exact Option.not_isSome_iff_eq_none.mp (by rw [h]; simp)
      rw [List.enumFrom_cons, List.filterMap_cons]
      simp only [hnone]
      rw [@List.filter_cons_of_neg _ (fun i => truthyStr i.file && truthyInt i.line)
        issue rest (by show (truthyStr issue.file && truthyInt issue.line) ≠ true; rw [hcond]; simp)]
      exact ih (n + 1)
    · have hsome : (prepareComment issue n fm).isSome = true := by
        rw [prepareComment_isSome, hcond]
      obtain ⟨c, hc⟩ := Option.isSome_iff_exists.mp hsome
      rw [List.enumFrom_cons, List.filterMap_cons]
      simp only [hc]
      rw [@List.filter_cons_of_pos _ (fun i => truthyStr i.file && truthyInt i.line)
        issue rest hcond]
      simp [ih (n + 1)]

/-! ## Claim theorems for the diff parser -/

/-- C1: for every unified-diff patch string, `getValidLineNumbers` returns
exactly the line numbers of the `add` and `context` entries of
`parseDiffPatch`, computed in new-file numbering as the specification
describes: within each hunk the running counter starts at the hunk header's
`+c` value, each add or context line emits the current counter value and then
increments it, each delete line leaves the counter unchanged, and file-header
lines and backslash no-newline markers produce no entry
(`validLineNumbersFromSpec` is that description, written independently of the
source's two-pass parse-then-filter structure). -/
theorem getValidLineNumbers_eq_spec (patch : String) :
    getValidLineNumbers patch = validLineNumbersFromSpec patch := by
  unfold getValidLineNumbers parseDiffPatch validLineNumbersFromSpec
  by_cases hp : patch = ""
  · simp [hp]
  · simp only [if_neg hp]
    exact parse_filter_agree _ 0

/-- C2 counterexample: in a patch whose hunk header `@@ -10,6 +10,8 @@` is
immediately followed by two added lines and then a context line, the two
added lines are numbered 10 and 11 (the counter starts at the header's `+10`
value), not 12 and 13 as the claim states; 13 is not a valid line at all. -/
theorem addedLines_not_at_12_13 :
    ((parseDiffPatch "@@ -10,6 +10,8 @@\n+a\n+b\n c").filter
        (fun l => l.type == DiffKind.add)).map (·.lineNumber) = [10, 11] ∧
    getValidLineNumbers "@@ -10,6 +10,8 @@\n+a\n+b\n c" = [10, 11, 12] ∧
    ¬((13 : Int) ∈ getValidLineNumbers "@@ -10,6 +10,8 @@\n+a\n+b\n c") := by
  decide

/-- C2 amended: in a patch whose hunk header `@@ -10,6 +10,8 @@` is followed
by two context lines, then two added lines, then a context line and a deleted
line (the shape of the repository's own test fixture), the two added lines
receive new-file line numbers 12 and 13, both appear in
`getValidLineNumbers`, and the delete-classified line is excluded from it. -/
theorem addedLines_at_12_13_after_context :
    ((parseDiffPatch "@@ -10,6 +10,8 @@\n a\n b\n+c\n+d\n e\n-x").filter
        (fun l => l.type == DiffKind.add)).map (·.lineNumber) = [12, 13] ∧
    (12 : Int) ∈ getValidLineNumbers "@@ -10,6 +10,8 @@\n a\n b\n+c\n+d\n e\n-x" ∧
    (13 : Int) ∈ getValidLineNumbers "@@ -10,6 +10,8 @@\n a\n b\n+c\n+d\n e\n-x" ∧
    getValidLineNumbers "@@ -10,6 +10,8 @@\n a\n b\n+c\n+d\n e\n-x" = [10, 11, 12, 13, 14] ∧
    (parseDiffPatch "@@ -10,6 +10,8 @@\n a\n b\n+c\n+d\n e\n-x").filter
        (fun l => l.type == DiffKind.delete) ≠ [] := by
  decide

/-- C3: `validateLine` returns the exact line unwarned on an exact match;
otherwise, when some valid line at or below the request exists, it is valid
with a warning and `actualLine` is the greatest valid line at or below the
request; otherwise it is invalid with a warning and `actualLine` equals the
requested line. `findClosestLineBefore` never exceeds the query and is `none`
exactly when no valid line at or below the query exists. -/
theorem validateLine_spec (n : Int) (p : String) :
    (n ∈ getValidLineNumbers p → validateLine n p = ⟨n, true, n, none⟩) ∧
    (n ∉ getValidLineNumbers p → (∃ m ∈ getValidLineNumbers p, m ≤ n) →
      (validateLine n p).requestedLine = n ∧
      (validateLine n p).isValid = true ∧
      ((validateLine n p).warning).isSome = true ∧
      (validateLine n p).actualLine ∈ getValidLineNumbers p ∧
      (validateLine n p).actualLine ≤ n ∧
      (∀ m ∈ getValidLineNumbers p, m ≤ n → m ≤ (validateLine n p).actualLine)) ∧
    ((¬∃ m ∈ getValidLineNumbers p, m ≤ n) →
      validateLine n p =
        ⟨n, false, n, some ("Line " ++ toString n ++ " not in diff, no earlier line available")⟩) ∧
    (∀ r, findClosestLineBefore n (getValidLineNumbers p) = some r → r ≤ n) ∧
    (findClosestLineBefore n (getValidLineNumbers p) = none ↔
      ¬∃ m ∈ getValidLineNumbers p, m ≤ n) := by
  refine ⟨?_, ?_, ?_, fun r h => findClosestLineBefore_le h, findClosestLineBefore_none_iff⟩
  · intro h
    simp [validateLine, h]
  · intro hnot hex
    rcases hfind : findClosestLineBefore n (getValidLineNumbers p) with _ | r
    · exact absurd hex (findClosestLineBefore_none_iff.mp hfind)
    · have hv : validateLine n p =
          ⟨n, true, r, some ("Line " ++ toString n ++ " not in diff, using line " ++ toString r)⟩ := by
        simp [validateLine, hnot, hfind]
      rw [hv]
      exact ⟨rfl, rfl, rfl, findClosestLineBefore_mem hfind,
        findClosestLineBefore_le hfind,
        fun m hm hle => findClosestLineBefore_ge hfind m hm hle⟩
  · intro hne
    have hnot : n ∉ getValidLineNumbers p := fun h => hne ⟨n, h, le_refl n⟩
    have hfind : findClosestLineBefore n (getValidLineNumbers p) = none :=
      findClosestLineBefore_none_iff.mpr hne
    simp [validateLine, hnot, hfind]

/-- Witness for C3 at a concrete input: requesting line 5 against a patch
whose valid lines are `[1, 2]` hits the closest-before branch. -/
theorem validateLine_spec_witness :
    (5 : Int) ∉ getValidLineNumbers "@@ -1,3 +1,2 @@\n line1\n-deleted\n line2" ∧
    (∃ m ∈ getValidLineNumbers "@@ -1,3 +1,2 @@\n line1\n-deleted\n line2", m ≤ 5) ∧
    (validateLine 5 "@@ -1,3 +1,2 @@\n line1\n-deleted\n line2").isValid = true ∧
    (validateLine 5 "@@ -1,3 +1,2 @@\n line1\n-deleted\n line2").actualLine ≤ 5 := by
  have h := (validateLine_spec 5 "@@ -1,3 +1,2 @@\n line1\n-deleted\n line2").2.1
    (by decide) (by decide)
  exact ⟨by decide, by decide, h.2.1, h.2.2.2.2.1⟩

/-! ## Claim theorems for the review store -/

/-- C7 counterexample: `setReviewFailed` applied to a non-existent id does
not leave the store unchanged — on the empty store it inserts a fresh
`failed` entry, and `setReviewCompleted` likewise inserts a fresh
`completed` entry. -/
theorem setReviewFailed_creates_entry :
    jsMapGet ([] : ReviewStore) "pr1" = none ∧
    setReviewFailed ([] : ReviewStore) "pr1" "boom" 0 ≠ ([] : ReviewStore) ∧
    jsMapGet (setReviewFailed ([] : ReviewStore) "pr1" "boom" 0) "pr1" =
      some ⟨"pr1", .failed, none, none, none, some "boom", none, some 0, none⟩ ∧
    setReviewCompleted ([] : ReviewStore) "pr1" demoResult 0 ≠ ([] : ReviewStore) ∧
    jsMapGet (setReviewCompleted ([] : ReviewStore) "pr1" demoResult 0) "pr1" =
      some ⟨"pr1", .completed, none, some 100, some demoResult, none, none, some 0, none⟩ := by
  decide

/-- C7 amended: every review-store operation is a total function over the
store (it is a Lean function, so it cannot raise); `setReviewCancelled` on a
missing or non-`in_progress` entry returns `false` and leaves the store —
including any existing terminal `ReviewState` — unchanged;
`updateReviewStage` on a missing or non-`in_progress` entry changes nothing;
but `setReviewFailed` and `setReviewCompleted` applied to a non-existent id
are not no-ops: they insert a fresh `failed` (resp. `completed`) entry. -/
theorem reviewStore_noop_amended (s : ReviewStore) (id : String) (now : Nat)
    (stage : ReviewStage) (error : String) (result : ReviewResult) :
    (jsMapGet s id = none →
      setReviewCancelled s id now = (false, s) ∧
      updateReviewStage s id stage = s ∧
      jsMapGet (setReviewFailed s id error now) id =
        some ⟨id, .failed, none, none, none, some error, none, some now, none⟩ ∧
      jsMapGet (setReviewCompleted s id result now) id =
        some ⟨id, .completed, none, some 100, some result, none, none, some now, none⟩) ∧
    (∀ st, jsMapGet s id = some st → st.status ≠ .in_progress →
      setReviewCancelled s id now = (false, s) ∧
      updateReviewStage s id stage = s) := by
  constructor
  · intro h
    refine ⟨?_, ?_, ?_, ?_⟩
    · simp [setReviewCancelled, h]
    · simp [updateReviewStage, h]
    · simp only [setReviewFailed, h, Option.none_bind]
      exact jsMapGet_set_self s id _
    · exact jsMapGet_set_self s id _
  · intro st h hst
    constructor
    · simp [setReviewCancelled, h, hst]
    · simp [updateReviewStage, h, hst]

/-- Witness for C7 amended: on the empty store every fact of the first
branch holds for id `pr9`, and cancelling the completed entry of
`demoCompletedStore` is refused and leaves the store unchanged. -/
theorem reviewStore_noop_amended_witness :
    jsMapGet ([] : ReviewStore) "pr9" = none ∧
    setReviewCancelled ([] : ReviewStore) "pr9" 3 = (false, []) ∧
    jsMapGet demoCompletedStore "prC" = some demoCompletedState ∧
    demoCompletedState.status ≠ ReviewStatus.in_progress ∧
    setReviewCancelled demoCompletedStore "prC" 3 = (false, demoCompletedStore) := by
  have h1 := (reviewStore_noop_amended ([] : ReviewStore) "pr9" 3 .starting "e" demoResult).1
    (by decide)
  have h2 := (reviewStore_noop_amended demoCompletedStore "prC" 3 .starting "e" demoResult).2
    demoCompletedState (by decide) (by decide)
  exact ⟨by decide, h1.1, by decide, by decide, h2.1⟩

/-- C10: `setReviewCompleted` replaces the entry wholesale with exactly the
completed record (discarding any previously stored stage, start time, error
and inline comments), while `setReviewFailed` merges into the existing
entry, preserving its stage, progress, start time and inline comments while
setting the failed status, the error message and the completion time. -/
theorem setReviewCompleted_replaces_failed_merges (s : ReviewStore)
    (prId : String) (result : ReviewResult) (error : String) (now : Nat)
    (st : ReviewState) (h : jsMapGet s prId = some st) :
    jsMapGet (setReviewCompleted s prId result now) prId =
      some ⟨prId, .completed, none, some 100, some result, none, none, some now, none⟩ ∧
    jsMapGet (setReviewFailed s prId error now) prId =
      some { st with prId := prId, status := .failed, error := some error,
                     completedAt := some now } := by
  constructor
  · exact jsMapGet_set_self s prId _
  · simp only [setReviewFailed, h, Option.some_bind]
    exact jsMapGet_set_self s prId _

/-- Witness for C10 on a store holding an in-flight entry with a stage, a
progress value and a start time. -/
theorem setReviewCompleted_replaces_witness :
    jsMapGet demoReviewStore "pr1" = some demoReviewState ∧
    jsMapGet (setReviewCompleted demoReviewStore "pr1" demoResult 7) "pr1" =
      some ⟨"pr1", .completed, none, some 100, some demoResult, none, none, some 7, none⟩ ∧
    jsMapGet (setReviewFailed demoReviewStore "pr1" "boom" 7) "pr1" =
      some { demoReviewState with prId := "pr1", status := .failed,
                                  error := some "boom", completedAt := some 7 } := by
  have h := setReviewCompleted_replaces_failed_merges demoReviewStore "pr1"
    demoResult "boom" 7 demoReviewState (by decide)
  exact ⟨by decide, h.1, h.2⟩

/-- Helper alias for the ne-none direction of `jsMapGet_eq_none_iff`. -/
theorem jsMapGet_ne_none_iff {β : Type} (m : List (String × β)) (k : String) :
    jsMapGet m k ≠ none ↔ k ∈ jsMapKeys m := by
  rw [Ne, jsMapGet_eq_none_iff, not_not]

/-- C6: `syncPRs` is idempotent (a second call with the same snapshot reports
empty `added` and `removed`) and partitions the identities involved, with no
overlap: `added` is exactly the snapshot ids absent from the store (inserted
with status `new` and no lifecycle timestamps), ids present in both are
updated in place (item data replaced by a snapshot member while
`lifecycleStatus` and the `seenAt`/`reviewStartedAt`/`reviewCompletedAt`
timestamps are preserved), and `removed` is exactly the stored ids absent
from the snapshot (deleted from the store). -/
theorem syncPRs_spec (s : PRStore) (prs : List PullRequest) (my : List String) :
    ((syncPRs (syncPRs s prs my).2 prs my).1 = ⟨[], []⟩) ∧
    (∀ id, id ∈ (syncPRs s prs my).1.added ↔
      (id ∈ prs.map (·.id) ∧ jsMapGet s id = none)) ∧
    (∀ id, id ∈ (syncPRs s prs my).1.removed ↔
      (jsMapGet s id ≠ none ∧ id ∉ prs.map (·.id))) ∧
    (∀ id, ¬(id ∈ (syncPRs s prs my).1.added ∧ id ∈ (syncPRs s prs my).1.removed)) ∧
    (∀ id, id ∈ (syncPRs s prs my).1.added →
      ∃ st', jsMapGet (syncPRs s prs my).2 id = some st' ∧ st'.status = .new ∧
        st'.seenAt = none ∧ st'.reviewStartedAt = none ∧
        st'.reviewCompletedAt = none) ∧
    (∀ id st0, jsMapGet s id = some st0 → id ∈ prs.map (·.id) →
      ∃ st' p, jsMapGet (syncPRs s prs my).2 id = some st' ∧
        st'.status = st0.status ∧ st'.seenAt = st0.seenAt ∧
        st'.reviewStartedAt = st0.reviewStartedAt ∧
        st'.reviewCompletedAt = st0.reviewCompletedAt ∧
        p ∈ prs ∧ p.id = id ∧ st'.pr = p) ∧
    (∀ id, id ∈ (syncPRs s prs my).1.removed →
      jsMapGet (syncPRs s prs my).2 id = none) := by
  have hA : ∀ id, id ∈ (syncPRs s prs my).1.added ↔
      (id ∈ prs.map (·.id) ∧ jsMapGet s id = none) := by
    intro id
    have heq : (syncPRs s prs my).1.added =
        prs.filterMap (fun pr => if (jsMapKeys s).contains pr.id then none else some pr.id) := by
      have h := syncAddLoop_added (jsMapKeys s) my prs [] s
      simpa using h
    rw [heq, List.mem_filterMap, jsMapGet_eq_none_iff]
    constructor
    · rintro ⟨pr, hpr, hif⟩
      by_cases hc : (jsMapKeys s).contains pr.id = true
      · rw [if_pos hc] at hif; cases hif
      · rw [if_neg hc] at hif
        have hid : pr.id = id := by injection hif
        subst hid
        exact ⟨List.mem_map.mpr ⟨pr, hpr, rfl⟩,
          (contains_eq_false_iff _ _).mp (Bool.eq_false_iff.mpr hc)⟩
    · rintro ⟨hmem, hkeys⟩
      obtain ⟨pr, hpr, hid⟩ := List.mem_map.mp hmem
      have hc : ¬(jsMapKeys s).contains pr.id = true := by
        rw [hid, contains_eq_true_iff]
        exact hkeys
      exact ⟨pr, hpr, by rw [if_neg hc, hid]⟩
  have hR : ∀ id, id ∈ (syncPRs s prs my).1.removed ↔
      (jsMapGet s id ≠ none ∧ id ∉ prs.map (·.id)) := by
    intro id
    have heq : (syncPRs s prs my).1.removed =
        (jsMapKeys s).filter (fun i => !((prs.map (·.id)).contains i)) := by
      have h := syncRemoveLoop_removed (prs.map (·.id)) (jsMapKeys s) []
        (syncAddLoop (jsMapKeys s) my prs [] s).2
      simpa using h
    rw [heq, List.mem_filter, jsMapGet_ne_none_iff]
    constructor
    · rintro ⟨hk, hb⟩
      rw [Bool.not_eq_true'] at hb
      exact ⟨hk, (contains_eq_false_iff _ _).mp hb⟩
    · rintro ⟨hk, hmem⟩
      refine ⟨hk, ?_⟩
      rw [Bool.not_eq_true']
      exact (contains_eq_false_iff _ _).mpr hmem
  have hFinal_some : ∀ id st0, jsMapGet s id = some st0 → id ∈ prs.map (·.id) →
      ∃ st' p, jsMapGet (syncPRs s prs my).2 id = some st' ∧
        st'.status = st0.status ∧ st'.seenAt = st0.seenAt ∧
        st'.reviewStartedAt = st0.reviewStartedAt ∧
        st'.reviewCompletedAt = st0.reviewCompletedAt ∧
        p ∈ prs ∧ p.id = id ∧ st'.pr = p := by
    intro id st0 h hmem
    obtain ⟨st1, hget1, f1, f2, f3, f4⟩ :=
      syncAddLoop_preserve (jsMapKeys s) my prs [] s st0 h
    obtain ⟨st2, p, hget2, hp, hpid, hpr⟩ :=
      syncAddLoop_pr (jsMapKeys s) my prs [] s st0 h hmem
    have hsame : st1 = st2 := by
      rw [hget1] at hget2
      exact Option.some.inj hget2.symm |>.symm
    subst hsame
    have hN : (prs.map (·.id)).contains id = true := (contains_eq_true_iff _ _).mpr hmem
    have hkeep := syncRemoveLoop_get_keep (prs.map (·.id)) hN (jsMapKeys s) []
      (syncAddLoop (jsMapKeys s) my prs [] s).2
    exact ⟨st1, p, hkeep.trans hget1, f1, f2, f3, f4, hp, hpid, hpr⟩
  have hFinal_new : ∀ id, id ∈ prs.map (·.id) → jsMapGet s id = none →
      ∃ st', jsMapGet (syncPRs s prs my).2 id = some st' ∧ st'.status = .new ∧
        st'.seenAt = none ∧ st'.reviewStartedAt = none ∧
        st'.reviewCompletedAt = none := by
    intro id hmem hnone
    have hE : (jsMapKeys s).contains id = false :=
      (contains_eq_false_iff _ _).mpr ((jsMapGet_eq_none_iff s id).mp hnone)
    obtain ⟨st1, hget1, f1, f2, f3, f4⟩ :=
      syncAddLoop_new (jsMapKeys s) my hE prs [] s hmem hnone
    have hN : (prs.map (·.id)).contains id = true := (contains_eq_true_iff _ _).mpr hmem
    have hkeep := syncRemoveLoop_get_keep (prs.map (·.id)) hN (jsMapKeys s) []
      (syncAddLoop (jsMapKeys s) my prs [] s).2
    exact ⟨st1, hkeep.trans hget1, f1, f2, f3, f4⟩
  have hFinal_removed : ∀ id, jsMapGet s id ≠ none → id ∉ prs.map (·.id) →
      jsMapGet (syncPRs s prs my).2 id = none := by
    intro id hne hmem
    have hk : id ∈ jsMapKeys s := (jsMapGet_ne_none_iff s id).mp hne
    have hN : (prs.map (·.id)).contains id = false :=
      (contains_eq_false_iff _ _).mpr hmem
    exact syncRemoveLoop_deletes (prs.map (·.id)) hN (jsMapKeys s) []
      (syncAddLoop (jsMapKeys s) my prs [] s).2 hk
  have hS'_some : ∀ id, id ∈ prs.map (·.id) →
      jsMapGet (syncPRs s prs my).2 id ≠ none := by
    intro id hmem
    cases hget : jsMapGet s id with
    | some st0 =>
      obtain ⟨st', p, hget2, _⟩ := hFinal_some id st0 hget hmem
      rw [hget2]
      simp
    | none =>
      obtain ⟨st', hget2, _⟩ := hFinal_new id hmem hget
      rw [hget2]
      simp
  have hS'_none : ∀ id, id ∉ prs.map (·.id) →
      jsMapGet (syncPRs s prs my).2 id = none := by
    intro id hmem
    cases hget : jsMapGet s id with
    | some st0 =>
      exact hFinal_removed id (by rw [hget]; simp) hmem
    | none =>
      have h1 : jsMapGet (syncAddLoop (jsMapKeys s) my prs [] s).2 id = none := by
        rw [syncAddLoop_get_notmem (jsMapKeys s) my hmem]
        exact hget
      exact syncRemoveLoop_none_stable (prs.map (·.id)) (jsMapKeys s) [] _ h1
  have hIdem : (syncPRs (syncPRs s prs my).2 prs my).1 = ⟨[], []⟩ := by
    have hAdded2 : (syncAddLoop (jsMapKeys (syncPRs s prs my).2) my prs []
        (syncPRs s prs my).2).1 = [] := by
      rw [syncAddLoop_added, List.nil_append]
      apply filterMap_eq_nil_of_all
      intro pr hpr
      have hmem : pr.id ∈ prs.map (·.id) := List.mem_map.mpr ⟨pr, hpr, rfl⟩
      have hc : (jsMapKeys (syncPRs s prs my).2).contains pr.id = true := by
        rw [contains_eq_true_iff, ← jsMapGet_ne_none_iff]
        exact hS'_some pr.id hmem
      rw [if_pos hc]
    have hRemoved2 : (syncRemoveLoop (prs.map (·.id))
        (jsMapKeys (syncPRs s prs my).2) []
        (syncAddLoop (jsMapKeys (syncPRs s prs my).2) my prs []
          (syncPRs s prs my).2).2).1 = [] := by
      rw [syncRemoveLoop_removed, List.nil_append]
      apply filter_eq_nil_of_all
      intro i hi
      have hprs : i ∈ prs.map (·.id) := by
        by_contra hnot
        exact jsMapGet_isSome_of_mem_keys hi (hS'_none i hnot)
      rw [Bool.not_eq_false']
      exact (contains_eq_true_iff _ _).mpr hprs
    rw [show (syncPRs (syncPRs s prs my).2 prs my).1 = SyncResult.mk
        (syncAddLoop (jsMapKeys (syncPRs s prs my).2) my prs [] (syncPRs s prs my).2).1
        (syncRemoveLoop (prs.map (·.id)) (jsMapKeys (syncPRs s prs my).2) []
          (syncAddLoop (jsMapKeys (syncPRs s prs my).2) my prs []
            (syncPRs s prs my).2).2).1 from rfl,
      hAdded2, hRemoved2]
  refine ⟨hIdem, hA, hR, ?_, ?_, hFinal_some, ?_⟩
  · rintro id ⟨ha, hr⟩
    rw [hA id] at ha
    rw [hR id] at hr
    exact hr.1 ha.2
  · intro id ha
    rw [hA id] at ha
    exact hFinal_new id ha.1 ha.2
  · intro id hr
    rw [hR id] at hr
    exact hFinal_removed id hr.1 hr.2

/-- Witness for C6 at a concrete store and snapshot: item `a` is updated in
place (status and `seenAt` preserved, data replaced), and a second sync with
the same snapshot reports no changes. -/
theorem syncPRs_spec_witness :
    jsMapGet demoPRStore "a" = some demoPRStateA ∧
    "a" ∈ demoPRs.map (·.id) ∧
    (∃ st' p, jsMapGet (syncPRs demoPRStore demoPRs ["b"]).2 "a" = some st' ∧
      st'.status = demoPRStateA.status ∧ st'.seenAt = demoPRStateA.seenAt ∧
      st'.reviewStartedAt = demoPRStateA.reviewStartedAt ∧
      st'.reviewCompletedAt = demoPRStateA.reviewCompletedAt ∧
      p ∈ demoPRs ∧ p.id = "a" ∧ st'.pr = p) ∧
    (syncPRs (syncPRs demoPRStore demoPRs ["b"]).2 demoPRs ["b"]).1 = ⟨[], []⟩ := by
  have h := syncPRs_spec demoPRStore demoPRs ["b"]
  exact ⟨by decide, by decide,
    h.2.2.2.2.2.1 "a" demoPRStateA (by decide) (by decide), h.1⟩

/-! ## Claim theorems for the inline comment preparer -/

/-- C9 counterexample: an issue that names a file but no line produces no
`InlineCommentState` at all — `prepareInlineComments` skips it — so the
output does not contain one entry per issue that names a file. -/
theorem issue_with_file_no_line_skipped :
    (([demoIssueNoLine] : List ReviewIssue).filter
      (fun i => truthyStr i.file)).length = 1 ∧
    prepareInlineComments [demoIssueNoLine] demoFiles = [] := by
  decide

/-- C9 amended: `prepareInlineComments` derives exactly one
`InlineCommentState` per extracted issue that names both a file and a
(truthy) line, and every produced comment's `selected` flag equals its
`isValid` flag: a comment validated against the diff is created with
`selected = true`, while an invalid one (file not in the PR, binary file
with no patch, or no valid diff line) is created with `selected = false`. -/
theorem prepareInlineComments_spec (issues : List ReviewIssue)
    (files : List PRFile) :
    (prepareInlineComments issues files).length =
      (issues.filter (fun i => truthyStr i.file && truthyInt i.line)).length ∧
    ∀ c ∈ prepareInlineComments issues files, c.selected = c.isValid := by
  constructor
  · show (List.filterMap _ issues.enum).length = _
    rw [show issues.enum = List.enumFrom 0 issues from rfl]
    exact enumFrom_prepare_length (buildFileMap files) issues 0
  · intro c hc
    obtain ⟨p, _, hp⟩ := List.mem_filterMap.mp hc
    exact prepareComment_selected hp

/-- Witness for C9 amended at a concrete issue list: one issue naming file
`a.ts` and line 1 yields exactly one comment, and the concrete comment's
`selected` equals its `isValid`. -/
theorem prepareInlineComments_spec_witness :
    (prepareInlineComments [demoIssueWithLine] demoFiles).length =
      (([demoIssueWithLine] : List ReviewIssue).filter
        (fun i => truthyStr i.file && truthyInt i.line)).length ∧
    demoComment.selected = demoComment.isValid := by
  have h := prepareInlineComments_spec [demoIssueWithLine] demoFiles
  exact ⟨h.1, h.2 demoComment (by decide)⟩

/-- C8 (the code contradicts the claim): a review cancelled through the
cancel route ends up recorded as `failed`. `cancelReview` aborts the
controller and kills the external process with `SIGTERM`; the route then
marks the state `cancelled`. A process terminated by a successful `SIGTERM`
fires its `close` event with a `null` exit code and does not fire `error`,
so the executor's `cancelled` flag is still `false` and the `close` handler
rejects with the classified error message `OpenCode exited with code 1`
(`exitCode ?? 1`). That message differs from `Review cancelled`, so the
`catch` block of `executeReview` calls `setReviewFailed`, which is not
guarded against terminal states and overwrites `cancelled` with `failed`. -/
theorem cancelled_review_reported_failed :
    (setReviewCancelled (setReviewInProgress ([] : ReviewStore) "pr1" none 0) "pr1" 1).1
        = true ∧
    (jsMapGet (setReviewCancelled
        (setReviewInProgress ([] : ReviewStore) "pr1" none 0) "pr1" 1).2 "pr1").map
        (·.status) = some ReviewStatus.cancelled ∧
    closeOutcome false false none "" "" =
      ExecOutcome.rejected "OpenCode exited with code 1" ∧
    (jsMapGet (executeReviewCatch
        (setReviewCancelled (setReviewInProgress ([] : ReviewStore) "pr1" none 0) "pr1" 1).2
        "pr1" "OpenCode exited with code 1" 2) "pr1").map (·.status) =
      some ReviewStatus.failed := by
  decide

/-! ## Claim theorems for the response parser -/

/-- C4: `parseReviewResponse` is a total function — on every input it
returns either the normalization of some extracted JSON value or the
fallback review, never an error — and whenever no extraction strategy
yields parseable JSON it returns exactly the fallback review built from the
processed text (canned review-completed summary, verdict `comment`, no
issues, and one suggestion carrying the first 500 characters of the
processed text). On the concrete input `not valid json` the result is that
fallback, whose single suggestion carries the input itself. -/
theorem parseReviewResponse_fallback :
    (∀ s, extractJson (contentToParse s) = none →
      parseReviewResponse s = createFallbackReview (contentToParse s)) ∧
    (∀ s, (∃ j, extractJson (contentToParse s) = some j ∧
        parseReviewResponse s = validateAndNormalizeReview j) ∨
      parseReviewResponse s = createFallbackReview (contentToParse s)) ∧
    (∀ s, createFallbackReview s =
      { summary := "Review completed. See raw output for details."
        verdict := .comment
        issues := []
        suggestions := [{ file := none, line := none, message := jsSlice500 s, code := none }]
        positives := none }) ∧
    contentToParse "not valid json" = "not valid json" ∧
    parseReviewResponse "not valid json" =
      { summary := "Review completed. See raw output for details."
        verdict := .comment
        issues := []
        suggestions := [{ file := none, line := none, message := "not valid json", code := none }]
        positives := none } := by
  refine ⟨?_, ?_, fun s => rfl, rfl, rfl⟩
  · intro s h
    simp [parseReviewResponse, h]
  · intro s
    cases h : extractJson (contentToParse s) with
    | none => exact Or.inr (by simp [parseReviewResponse, h])
    | some j =>
      refine Or.inl ⟨j, rfl, ?_⟩
      simp [parseReviewResponse, h]

/-- Witness for C4 at the concrete input `not valid json`: no strategy
parses it, and the result is the fallback review over the processed text. -/
theorem parseReviewResponse_fallback_witness :
    extractJson (contentToParse "not valid json") = none ∧
    parseReviewResponse "not valid json" =
      createFallbackReview (contentToParse "not valid json") :=
  ⟨rfl, parseReviewResponse_fallback.1 "not valid json" rfl⟩

/-- C5: normalization of a successfully parsed JSON object: a missing
`summary` becomes the canned default; the verdict is matched
case-insensitively by substring (`approve` wins, then `request`/`change`,
else `comment` — so `APPROVE` normalizes to exactly `approve`, shown on the
concrete object); severity maps `critical`/`error` to critical, `warn` to
warning, anything else to info; non-array `issues`/`suggestions` become
empty arrays; and a suggestions array is mapped elementwise, with a
non-object element coerced to a suggestion whose message is the stringified
value. -/
theorem validateAndNormalizeReview_spec :
    (∀ fs : List (String × Json), jsonLookup (Json.obj fs) "summary" = none →
      (validateAndNormalizeReview (Json.obj fs)).summary = "Review completed") ∧
    (∀ fs : List (String × Json),
      containsSub (asciiLower (jsStringU (jsonLookup (Json.obj fs) "verdict"))) "approve" = true →
      (validateAndNormalizeReview (Json.obj fs)).verdict = .approve) ∧
    (∀ fs : List (String × Json),
      containsSub (asciiLower (jsStringU (jsonLookup (Json.obj fs) "verdict"))) "approve" = false →
      (containsSub (asciiLower (jsStringU (jsonLookup (Json.obj fs) "verdict"))) "request" = true ∨
        containsSub (asciiLower (jsStringU (jsonLookup (Json.obj fs) "verdict"))) "change" = true) →
      (validateAndNormalizeReview (Json.obj fs)).verdict = .request_changes) ∧
    (∀ fs : List (String × Json),
      containsSub (asciiLower (jsStringU (jsonLookup (Json.obj fs) "verdict"))) "approve" = false →
      containsSub (asciiLower (jsStringU (jsonLookup (Json.obj fs) "verdict"))) "request" = false →
      containsSub (asciiLower (jsStringU (jsonLookup (Json.obj fs) "verdict"))) "change" = false →
      (validateAndNormalizeReview (Json.obj fs)).verdict = .comment) ∧
    (∀ v : Option Json,
      (containsSub (asciiLower (jsStringU v)) "critical" = true ∨
        containsSub (asciiLower (jsStringU v)) "error" = true) →
      normalizeSeverity v = .critical) ∧
    (∀ v : Option Json,
      containsSub (asciiLower (jsStringU v)) "critical" = false →
      containsSub (asciiLower (jsStringU v)) "error" = false →
      containsSub (asciiLower (jsStringU v)) "warn" = true →
      normalizeSeverity v = .warning) ∧
    (∀ v : Option Json,
      containsSub (asciiLower (jsStringU v)) "critical" = false →
      containsSub (asciiLower (jsStringU v)) "error" = false →
      containsSub (asciiLower (jsStringU v)) "warn" = false →
      normalizeSeverity v = .info) ∧
    (∀ fs : List (String × Json),
      (∀ l, jsonLookup (Json.obj fs) "issues" ≠ some (Json.arr l)) →
      (validateAndNormalizeReview (Json.obj fs)).issues = []) ∧
    (∀ fs : List (String × Json),
      (∀ l, jsonLookup (Json.obj fs) "suggestions" ≠ some (Json.arr l)) →
      (validateAndNormalizeReview (Json.obj fs)).suggestions = []) ∧
    (∀ (fs : List (String × Json)) (items : List Json),
      jsonLookup (Json.obj fs) "suggestions" = some (Json.arr items) →
      (validateAndNormalizeReview (Json.obj fs)).suggestions =
        items.map normalizeSuggestionItem) ∧
    (∀ item : Json, (∀ fs', item ≠ Json.obj fs') →
      normalizeSuggestionItem item =
        { file := none, line := none, message := jsString item, code := none }) ∧
    (validateAndNormalizeReview (Json.obj [("verdict", Json.str "APPROVE")])).verdict
      = .approve := by
  refine ⟨?_, ?_, ?_, ?_, ?_, ?_, ?_, ?_, ?_, ?_, ?_, rfl⟩
  · intro fs h
    simp [validateAndNormalizeReview, h, getString, jsOrStr]
  · intro fs h
    simp [validateAndNormalizeReview, normalizeVerdict, h]
  · intro fs h1 h2
    rcases h2 with h2 | h2 <;>
      simp [validateAndNormalizeReview, normalizeVerdict, h1, h2]
  · intro fs h1 h2 h3
    simp [validateAndNormalizeReview, normalizeVerdict, h1, h2, h3]
  · intro v h
    rcases h with h | h <;> simp [normalizeSeverity, h]
  · intro v h1 h2 h3
    simp [normalizeSeverity, h1, h2, h3]
  · intro v h1 h2 h3
    simp [normalizeSeverity, h1, h2, h3]
  · intro fs h
    have : (validateAndNormalizeReview (Json.obj fs)).issues =
        normalizeIssues (jsonLookup (Json.obj fs) "issues") := rfl
    rw [this]
    cases hv : jsonLookup (Json.obj fs) "issues" with
    | none => rfl
    | some j =>
      cases j with
      | arr l => exact absurd hv (h l)
      | null => rfl
      | bool b => rfl
      | num n => rfl
      | str s => rfl
      | obj fs2 => rfl
  · intro fs h
    have : (validateAndNormalizeReview (Json.obj fs)).suggestions =
        normalizeSuggestions (jsonLookup (Json.obj fs) "suggestions") := rfl
    rw [this]
    cases hv : jsonLookup (Json.obj fs) "suggestions" with
    | none => rfl
    | some j =>
      cases j with
      | arr l => exact absurd hv (h l)
      | null => rfl
      | bool b => rfl
      | num n => rfl
      | str s => rfl
      | obj fs2 => rfl
  · intro fs items h
    have : (validateAndNormalizeReview (Json.obj fs)).suggestions =
        normalizeSuggestions (jsonLookup (Json.obj fs) "suggestions") := rfl
    rw [this, h]
    rfl
  · intro item h
    cases item with
    | obj fs' => exact absurd rfl (h fs')
    | null => rfl
    | bool b => rfl
    | num n => rfl
    | str s => rfl
    | arr l => rfl

/-- Witness for C5 at concrete inputs: the empty object gets the canned
summary, and a suggestions array holding the bare number 7 is coerced to
one suggestion with message `7`. -/
theorem validateAndNormalizeReview_spec_witness :
    jsonLookup (Json.obj []) "summary" = none ∧
    (validateAndNormalizeReview (Json.obj [])).summary = "Review completed" ∧
    containsSub (asciiLower (jsStringU (jsonLookup
      (Json.obj [("verdict", Json.str "APPROVE")]) "verdict"))) "approve" = true ∧
    (validateAndNormalizeReview (Json.obj [("verdict", Json.str "APPROVE")])).verdict
      = .approve ∧
    normalizeSuggestionItem (Json.num 7) =
      { file := none, line := none, message := "7", code := none } :=
  ⟨rfl, validateAndNormalizeReview_spec.1 [] rfl, rfl,
    validateAndNormalizeReview_spec.2.1 [("verdict", Json.str "APPROVE")] rfl,
    validateAndNormalizeReview_spec.2.2.2.2.2.2.2.2.2.2.1 (Json.num 7)
      (fun _ h => Json.noConfusion h)⟩

end Prpal
